import Mathlib

/-
Verification of the `know` incremental indexing and hybrid-retrieval engine.

Shallow embedding of the Python sources:
  src/cache.py      -> file-change cache load/save
  src/bm25.py       -> lexical (BM25) index cache and query
  src/retrieval.py  -> SearchItem, reciprocal-rank fusion
  src/db.py         -> ingest, search, filters, prune

Modelling conventions:
  - Python dicts (with insertion order) are association lists; assignment
    updates in place, a new key is appended at the end.
  - Machine floats used for mtimes and scores are modelled as rationals;
    the only float operations performed by the code are additions of exact
    reciprocals, comparisons and equality tests, which agree with the
    rational semantics on the inputs the claims are about (IEEE addition
    is commutative, so the tie 1/61 + 1/62 = 1/62 + 1/61 holds in both).
  - Filesystem access is explicit: an `FS` value maps paths to stat data,
    and operations that can raise `FileNotFoundError` in Python live in
    `Except PyError`.
  - External collaborators (the md5 digest, the llama-index document
    splitter, the chromadb dense query, and the bm25s scorer) are function
    parameters; their contracts appear as hypotheses where a claim needs
    them.
  - Source paths are taken as already absolute and normalized (the reader
    produces them that way), so `Path(p).as_posix()` is the identity and
    `Path.resolve` is the identity in the model.
-/

namespace Know


/-! ## Association lists modelling Python dicts -/

/-- Lookup in an insertion-ordered association list (Python `d.get(k)`). -/
def lookupStr {α : Type} : List (String × α) → String → Option α
  | [], _ => none
  | (k, v) :: rest, key => if k = key then some v else lookupStr rest key

/-- Assignment `d[k] = v` on an insertion-ordered association list:
an existing key keeps its position, a new key is appended. -/
def setStr {α : Type} : List (String × α) → String → α → List (String × α)
  | [], key, v => [(key, v)]
  | (k, w) :: rest, key, v =>
      if k = key then (k, v) :: rest else (k, w) :: setStr rest key v

/-! ## Glob matching (Python `fnmatch.fnmatch` on a POSIX system)

`fnmatch.translate` compiles a pattern into a regex: `*` matches any
sequence of characters (including `/`), `?` any single character,
`[...]` a character class (leading `!` negates, a `]` directly after the
opening bracket or after `[!` is a literal member, `x-y` is a code-point
range), and an unmatched `[` is a literal.  The compiled regex is then
matched against the whole name.  We compile to a token list and run a
backtracking full match, which is equivalent. -/

/-- One compiled pattern token. -/
inductive GlobTok where
  | star : GlobTok
  | anyChar : GlobTok
  | lit : Char → GlobTok
  | cls : Bool → List Char → GlobTok
deriving DecidableEq, Repr

/-- Scan forward for the closing `]` of a character class; returns the class
body and the remainder of the pattern. -/
def scanClass : List Char → List Char → Option (List Char × List Char)
  | _, [] => none
  | acc, c :: rest =>
      if c = ']' then some (acc.reverse, rest) else scanClass (c :: acc) rest

/-- Split a character class at the head of `ps` (the pattern after `[`):
returns (negated?, body, rest) or `none` when no closing `]` exists. -/
def splitClass (ps : List Char) : Option (Bool × List Char × List Char) :=
  match ps with
  | '!' :: ']' :: rest =>
      match scanClass [']'] rest with
      | some (body, after) => some (true, body, after)
      | none => none
  | '!' :: rest =>
      match scanClass [] rest with
      | some (body, after) => some (true, body, after)
      | none => none
  | ']' :: rest =>
      match scanClass [']'] rest with
      | some (body, after) => some (false, body, after)
      | none => none
  | rest =>
      match scanClass [] rest with
      | some (body, after) => some (false, body, after)
      | none => none

/-- Compile a glob pattern into tokens, following `fnmatch.translate`.
Fuel-bounded structural recursion: every step consumes at least one
pattern character, so fuel equal to the pattern length never runs out
(the fuel-0 branch is unreachable). -/
def compilePatGo : Nat → List Char → List GlobTok
  | 0, _ => []
  | _ + 1, [] => []
  | fuel + 1, '*' :: ps => GlobTok.star :: compilePatGo fuel ps
  | fuel + 1, '?' :: ps => GlobTok.anyChar :: compilePatGo fuel ps
  | fuel + 1, '[' :: ps =>
      match splitClass ps with
      | some (neg, body, rest) => GlobTok.cls neg body :: compilePatGo fuel rest
      | none => GlobTok.lit '[' :: compilePatGo fuel ps
  | fuel + 1, c :: ps => GlobTok.lit c :: compilePatGo fuel ps

/-- Compile with sufficient fuel. -/
def compilePat (ps : List Char) : List GlobTok := compilePatGo ps.length ps

/-- Membership of a character in a class body; `x-y` is a code-point range,
a trailing `-` is a literal. -/
def classMatch (c : Char) : List Char → Bool
  | x :: '-' :: y :: rest => (x ≤ c && c ≤ y) || classMatch c rest
  | x :: rest => (c = x) || classMatch c rest
  | [] => false

/-- Full-match of a compiled pattern against a name (regex semantics of the
translated pattern): `*` consumes any number of characters, `/` included,
expressed as a search over all drop points. -/
def matchToks : List GlobTok → List Char → Bool
  | [], ns => ns.isEmpty
  | GlobTok.star :: ts, ns =>
      (List.range (ns.length + 1)).any (fun i => matchToks ts (ns.drop i))
  | GlobTok.anyChar :: ts, ns =>
      match ns with
      | [] => false
      | _ :: ns2 => matchToks ts ns2
  | GlobTok.lit p :: ts, ns =>
      match ns with
      | [] => false
      | c :: ns2 => (p = c) && matchToks ts ns2
  | GlobTok.cls neg body :: ts, ns =>
      match ns with
      | [] => false
      | c :: ns2 => (classMatch c body != neg) && matchToks ts ns2

/-- Python `fnmatch.fnmatch(name, pat)` (POSIX: `normcase` is the identity). -/
def fnmatch (name pat : String) : Bool :=
  matchToks (compilePat pat.data) name.data

/-! ## Chunk identity (src/db.py lines 198-203)

`chunk_id = md5(f"{source_path}:{chunk_index}:{node.text}").hexdigest()`.
The md5 digest is an external collaborator, passed as a function; the
pre-hash string is modelled exactly, with `natRepr` the decimal rendering
Python's f-string applies to the non-negative `chunk_index`. -/

/-- Decimal rendering of a natural number, as Python `str` produces it. -/
def natRepr (n : Nat) : String :=
  String.mk (if n = 0 then ['0'] else ((Nat.digits 10 n).reverse.map Nat.digitChar))

/-- The pre-hash string `f"{source_path}:{chunk_index}:{node.text}"`. -/
def identifyKey (path : String) (idx : Nat) (text : String) : String :=
  path ++ ":" ++ natRepr idx ++ ":" ++ text

/-- The chunk id: md5 hexdigest of the pre-hash string. -/
def identify (md5 : String → String) (path : String) (idx : Nat) (text : String) : String :=
  md5 (identifyKey path idx text)

/-! ## Search items and reciprocal rank fusion (src/retrieval.py)

`rrf_fuse` accumulates, in a Python dict keyed by chunk id, the sum of
`1/(k+rank)` over all (list, 1-based rank) occurrences, remembering the
first item stored under each key; it then sorts descending by score with
Python's stable `list.sort(reverse=True)` and truncates.  A stable
descending sort has a unique output, so it is modelled by a stable
insertion sort. -/

/-- Chunk metadata as written by ingest (src/db.py lines 207-214). -/
structure ChunkMeta where
  path : String
  filename : String
  extension : String
  sizeBytes : Nat
  chunkIndex : Nat
  nodeId : String
deriving DecidableEq, Repr

/-- A query result unit (src/retrieval.py `SearchItem`). -/
structure SearchItem where
  key : String
  doc : String
  meta : ChunkMeta
  distance : Option ℚ
deriving DecidableEq, Repr

/-- A fused result (src/retrieval.py `FusedItem`). -/
structure FusedItem where
  item : SearchItem
  score : ℚ
deriving DecidableEq, Repr

/-- One loop body iteration of `rrf_fuse`: create the entry on first sight,
then add `1/(k+rank)` to its score. -/
def rrfAdd (k : Nat) (scores : List (String × SearchItem × ℚ)) (rank : Nat)
    (item : SearchItem) : List (String × SearchItem × ℚ) :=
  match lookupStr scores item.key with
  | none => scores ++ [(item.key, (item, 1 / ((k + rank : Nat) : ℚ)))]
  | some (it, s) => setStr scores item.key (it, s + 1 / ((k + rank : Nat) : ℚ))

/-- Process one ranked list with 1-based ranks (`enumerate(items, 1)`). -/
def rrfList (k : Nat) :
    List (String × SearchItem × ℚ) → Nat → List SearchItem → List (String × SearchItem × ℚ)
  | scores, _, [] => scores
  | scores, rank, item :: rest => rrfList k (rrfAdd k scores rank item) (rank + 1) rest

/-- Process all ranked lists in order. -/
def rrfAll (k : Nat) :
    List (String × SearchItem × ℚ) → List (List SearchItem) → List (String × SearchItem × ℚ)
  | scores, [] => scores
  | scores, l :: ls => rrfAll k (rrfList k scores 1 l) ls

/-- Stable descending insertion: `x` goes after every earlier element with
an equal or higher score. -/
def insertDesc (x : FusedItem) : List FusedItem → List FusedItem
  | [] => [x]
  | y :: ys => if y.score < x.score then x :: y :: ys else y :: insertDesc x ys

/-- The unique stable descending sort, as `list.sort(reverse=True)` computes. -/
def sortDesc (l : List FusedItem) : List FusedItem :=
  l.foldl (fun acc x => insertDesc x acc) []

/-- src/retrieval.py `rrf_fuse` (defaults `k=60`, `limit=5` at call sites). -/
def rrf_fuse (result_lists : List (List SearchItem)) (k : Nat) (limit : Nat) :
    List FusedItem :=
  let scores := rrfAll k [] result_lists
  let fused := scores.map (fun e => FusedItem.mk e.2.1 e.2.2)
  (sortDesc fused).take limit

/-- Occurrence-sum of rank reciprocals contributed by one list, starting at
a given rank. -/
def contribFrom (k : Nat) (key : String) : Nat → List SearchItem → ℚ
  | _, [] => 0
  | rank, it :: rest =>
      (if it.key = key then 1 / ((k + rank : Nat) : ℚ) else 0)
        + contribFrom k key (rank + 1) rest

/-- Total contribution of all lists for a key. -/
def totalContrib (k : Nat) (key : String) (lists : List (List SearchItem)) : ℚ :=
  (lists.map (contribFrom k key 1)).sum

/-- 0-based position of the first occurrence of a key. -/
def rankIdx (key : String) : List String → Nat
  | [] => 0
  | kk :: rest => if kk = key then 0 else rankIdx key rest + 1

/-- The score the specification assigns: the sum, over the lists containing
the id, of the reciprocal 1/(k + r) of its 1-based rank r in that list. -/
def rrfSpecScore (k : Nat) (key : String) (lists : List (List SearchItem)) : ℚ :=
  (lists.map (fun l =>
    if key ∈ l.map SearchItem.key
    then 1 / ((k + (rankIdx key (l.map SearchItem.key) + 1) : Nat) : ℚ)
    else 0)).sum

/-- Invariant of the `scores` dict: keys are unique (an entry is appended
only when absent) and every entry is stored under its own item's key. -/
def ScoresOk (scores : List (String × SearchItem × ℚ)) : Prop :=
  (scores.map Prod.fst).Nodup ∧ ∀ e ∈ scores, e.2.1.key = e.1

/-! Concrete inputs for the specification's RRF example: dense ranking
`[A, B, C]`, lexical ranking `[B, A, D]`, `k = 60`. -/

/-- Placeholder metadata for the example items. -/
def exMeta : ChunkMeta := ⟨"", "", "", 0, 0, ""⟩

/-- Example item with id `A`. -/
def exA : SearchItem := ⟨"A", "docA", exMeta, none⟩

/-- Example item with id `B`. -/
def exB : SearchItem := ⟨"B", "docB", exMeta, none⟩

/-- Example item with id `C`. -/
def exC : SearchItem := ⟨"C", "docC", exMeta, none⟩

/-- Example item with id `D`. -/
def exD : SearchItem := ⟨"D", "docD", exMeta, none⟩

/-- The example's ranked lists: dense `[A,B,C]`, lexical `[B,A,D]`. -/
def exLists : List (List SearchItem) := [[exA, exB, exC], [exB, exA, exD]]

/-! ## Errors and the filesystem

Python exceptions relevant to the engine live in `Except`: `Path.stat` on a
missing path raises `FileNotFoundError`; the bm25s scorer's contract allows
a failure for an out-of-range `k`. -/

/-- A raised Python exception. -/
inductive PyError where
  | fileNotFound : String → PyError
  | scorerFailure : String → PyError
deriving DecidableEq, Repr

/-- The fields of `os.stat_result` the engine reads. -/
structure FileStat where
  mtime : ℚ
  size : Nat
deriving DecidableEq, Repr

/-- The filesystem visible to the engine: existing paths and their stat. -/
abbrev FS := List (String × FileStat)

/-- `Path(p).stat()`: raises FileNotFoundError on a missing path. -/
def statE (fs : FS) (p : String) : Except PyError FileStat :=
  match lookupStr fs p with
  | none => Except.error (PyError.fileNotFound p)
  | some st => Except.ok st

/-- `Path(p).exists()`. -/
def existsFS (fs : FS) (p : String) : Bool := (lookupStr fs p).isSome

/-- Split a character list on a separator, Python `str.split` style. -/
def splitOnChar (sep : Char) : List Char → List (List Char)
  | [] => [[]]
  | c :: rest =>
      let r := splitOnChar sep rest
      if c = sep then [] :: r else (c :: r.headD []) :: r.tailD []

/-- `Path(p).name`: the final path component (paths taken normalized). -/
def baseName (p : String) : String :=
  String.mk (((splitOnChar '/' p.data).filter (fun l => l ≠ [])).getLastD [])

/-- `Path(p).suffix`: the final extension; empty for dotfiles and for a
trailing dot. -/
def extOf (p : String) : String :=
  match splitOnChar '.' (baseName p).data with
  | [] => ""
  | [_] => ""
  | first :: rest =>
      let last := rest.getLastD []
      if last = [] then ""
      else if first = [] ∧ rest.length = 1 then ""
      else String.mk ('.' :: last)

/-- `Path(p).relative_to(dir)` (posix form) when `p` is under `dir`. -/
def relTo (dir p : String) : Option String :=
  if p = dir then some "."
  else if (dir.data ++ ['/']).isPrefixOf p.data
  then some (String.mk (p.data.drop (dir.data.length + 1)))
  else none

/-! ## File change cache (src/cache.py) -/

/-- One per-path entry: mtime, size, and whether its chunks were fully
indexed (false while an ingestion is in flight). -/
structure CacheEntry where
  mtime : ℚ
  size : Nat
  indexed : Bool
deriving DecidableEq, Repr

/-- The persisted cache document: the chunking configuration it was built
under, plus the per-path entries. -/
structure CacheFile where
  chunkSize : Nat
  chunkOverlap : Nat
  files : List (String × CacheEntry)
deriving DecidableEq, Repr

/-- src/cache.py `load_file_cache`: empty when no cache exists or when the
stored configuration differs from the requested one (full invalidation). -/
def load_file_cache (store : Option CacheFile) (chunk_size chunk_overlap : Nat) :
    List (String × CacheEntry) :=
  match store with
  | none => []
  | some c =>
      if c.chunkSize = chunk_size ∧ c.chunkOverlap = chunk_overlap then c.files else []

/-- src/cache.py `save_file_cache`: the payload persisted at the cache path. -/
def save_file_cache (files : List (String × CacheEntry)) (chunk_size chunk_overlap : Nat) :
    CacheFile :=
  ⟨chunk_size, chunk_overlap, files⟩

/-- The cache file's path (src/cache.py `CACHE_PATH`). -/
def cachePathName : String := "./know_index/file_cache.json"

/-- A filesystem operation `save_file_cache` performs. -/
inductive FsOp where
  | mkdirParent : FsOp
  | writeFile : String → String → FsOp
deriving DecidableEq, Repr

/-- Effect of a completed operation on the cache file's content. -/
def opRun (cur : Option String) : FsOp → Option String
  | FsOp.mkdirParent => cur
  | FsOp.writeFile p c => if p = cachePathName then some c else cur

/-- Contents observable at the cache path if the process crashes during an
operation: a direct `write_text` opens the final path with truncation and
may have flushed any prefix of the new payload. -/
def opCrash (cur : Option String) : FsOp → List (Option String)
  | FsOp.mkdirParent => [cur]
  | FsOp.writeFile p c =>
      if p = cachePathName
      then (List.range (c.length + 1)).map (fun n => some (String.mk (c.data.take n)))
      else [cur]

/-- All cache-path contents observable after a crash somewhere in an
operation sequence. -/
def crashStates (cur : Option String) : List FsOp → List (Option String)
  | [] => []
  | op :: rest => opCrash cur op ++ crashStates (opRun cur op) rest

/-- The operations of src/cache.py `save_file_cache`: `mkdir -p` on the
parent, then one direct `write_text` of the serialized payload to the final
path — no temporary file and no rename. -/
def save_file_cache_ops (payload : String) : List FsOp :=
  [FsOp.mkdirParent, FsOp.writeFile cachePathName payload]

/-! ## The vector index (the chromadb collection, as the engine uses it) -/

/-- One stored chunk: id, display document, metadata. -/
structure ChunkRecord where
  id : String
  doc : String
  meta : ChunkMeta
deriving DecidableEq, Repr

/-- The dense collection, in insertion order; chromadb keeps ids unique. -/
abbrev Collection := List ChunkRecord

/-- Whether an id exists in the collection (`collection.get(ids=...)`). -/
def collHas (c : Collection) (id : String) : Bool := c.any (fun r => r.id = id)

/-- Payload fetch by id. -/
def collFind (c : Collection) (id : String) : Option ChunkRecord :=
  c.find? (fun r => r.id = id)

/-- All ids, in collection order. -/
def collIds (c : Collection) : List String := c.map (fun r => r.id)

/-- All documents, in collection order. -/
def collDocs (c : Collection) : List String := c.map (fun r => r.doc)

/-- `collection.upsert`: replace an existing id in place, append a new one.
Sequential batches compose to one fold. -/
def collUpsert (c : Collection) (entries : List ChunkRecord) : Collection :=
  entries.foldl (fun acc e =>
    if acc.any (fun r => r.id = e.id)
    then acc.map (fun r => if r.id = e.id then e else r)
    else acc ++ [e]) c

/-- `collection.delete(ids=...)`: batched deletes compose to one filter. -/
def collDelete (c : Collection) (ids : List String) : Collection :=
  c.filter (fun r => decide (r.id ∉ ids))

/-- The external dense (embedding) query: up to n ranked results with
ascending distances, drawn from the collection. -/
abbrev DenseQuery := Collection → String → Nat → List SearchItem

/-! ## Lexical index cache (src/bm25.py)

The bm25s retriever artifact is modelled by the document corpus it was
built from; scoring is delegated to a scorer parameter (the `Retriever`),
whose contract allows failure when `k` exceeds the corpus size. -/

/-- The persisted lexical snapshot: meta.json's count, ids.json's id list,
and the retriever artifact. -/
structure BM25Store where
  count : Nat
  ids : List String
  artifact : List String
deriving DecidableEq, Repr

/-- src/bm25.py `load_cached_index`: `none` when the snapshot files are
missing, when the stored count differs from the expected count, or when the
stored id list's length differs from it. -/
def load_cached_index (store : Option BM25Store) (expected_count : Nat) :
    Option (List String × List String) :=
  match store with
  | none => none
  | some s =>
      if s.count ≠ expected_count then none
      else if s.ids.length ≠ expected_count then none
      else some (s.artifact, s.ids)

/-- src/bm25.py `save_cached_index`: persists the artifact, the id list and
`count = len(ids)`. -/
def save_cached_index (artifact : List String) (ids : List String) : BM25Store :=
  ⟨ids.length, ids, artifact⟩

/-- The bm25s scorer: artifact, id corpus, query, k; ranked (ids, scores). -/
abbrev Retriever :=
  List String → List String → String → Nat → Except PyError (List String × List ℚ)

/-- src/bm25.py `BM25Index`. -/
structure BM25Index where
  ids : List String
  documents : List String
  metadatas : List ChunkMeta
  bm25 : List String
deriving DecidableEq, Repr

/-- src/bm25.py `BM25Index.from_documents`: tokenize and index the corpus;
the artifact is determined by the documents. -/
def BM25Index.from_documents (ids documents : List String)
    (metadatas : List ChunkMeta) : BM25Index :=
  ⟨ids, documents, metadatas, documents⟩

/-- src/bm25.py `BM25Index.query_ids`: empty pair on an empty id corpus,
otherwise retrieve with `k = min(limit, len(ids))`. -/
def BM25Index.query_ids (retrieve : Retriever) (idx : BM25Index) (query : String)
    (limit : Nat) : Except PyError (List String × List ℚ) :=
  if idx.ids.isEmpty then Except.ok ([], [])
  else retrieve idx.bm25 idx.ids query (min limit idx.ids.length)

/-! ## Query-side filtering and search (src/db.py) -/

/-- Whether any pattern matches the posix path or its basename
(src/db.py `_filter_items` glob test). -/
def globAnyMatch (globs : List String) (path_str base_name : String) : Bool :=
  globs.any (fun pat => fnmatch path_str pat || fnmatch base_name pat)

/-- The per-item loop of `_filter_items`: glob test first (no stat), then
the mtime test, whose `Path.stat` raises on a missing path. -/
def filterGo (fs : FS) (globs : List String) (since : Option ℚ) :
    List SearchItem → Except PyError (List SearchItem)
  | [] => Except.ok []
  | item :: rest =>
      let source_path := item.meta.path
      if globs ≠ [] ∧ ¬ (globAnyMatch globs source_path (baseName source_path) = true)
      then filterGo fs globs since rest
      else
        match since with
        | none => (filterGo fs globs since rest).map (fun l => item :: l)
        | some cutoff =>
            match statE fs source_path with
            | Except.error e => Except.error e
            | Except.ok st =>
                if st.mtime < cutoff
                then filterGo fs globs since rest
                else (filterGo fs globs since rest).map (fun l => item :: l)

/-- src/db.py `_filter_items`. -/
def _filter_items (fs : FS) (globs : List String) (since : Option ℚ)
    (items : List SearchItem) : Except PyError (List SearchItem) :=
  if globs = [] ∧ since = none then Except.ok items
  else filterGo fs globs since items

/-- src/db.py `_query_items`: dense query, early return on no documents,
then filtering. -/
def _query_items (dq : DenseQuery) (coll : Collection) (fs : FS) (query : String)
    (limit : Nat) (globs : List String) (since : Option ℚ) :
    Except PyError (List SearchItem) :=
  let items := dq coll query limit
  if items.isEmpty then Except.ok []
  else _filter_items fs globs since items

/-- Tail of `_bm25_query_items` once retriever and ids are settled: query
for `min(max(limit*3, 20), len(ids))` ids, fetch payloads by id, filter,
truncate to `limit`. -/
def bmTail (retrieve : Retriever) (fs : FS) (coll : Collection)
    (artifact ids : List String) (query : String) (limit : Nat)
    (globs : List String) (since : Option ℚ) : Except PyError (List SearchItem) :=
  let extra := max (limit * 3) 20
  let query_index : BM25Index := ⟨ids, [], [], artifact⟩
  match query_index.query_ids retrieve query (min extra ids.length) with
  | Except.error e => Except.error e
  | Except.ok (ranked_ids, scores) =>
      if ranked_ids.isEmpty then Except.ok []
      else
        let items := (ranked_ids.zip scores).filterMap (fun pr =>
          match collFind coll pr.1 with
          | none => none
          | some r => some (SearchItem.mk pr.1 r.doc r.meta (some pr.2)))
        match _filter_items fs globs since items with
        | Except.error e => Except.error e
        | Except.ok filtered => Except.ok (filtered.take limit)

/-- src/db.py `_bm25_query_items`: returns the query outcome paired with the
snapshot state after the call (the snapshot is persisted before the query
runs, so it is updated even when the query then fails). -/
def _bm25_query_items (retrieve : Retriever) (fs : FS) (coll : Collection)
    (store : Option BM25Store) (query : String) (limit : Nat)
    (globs : List String) (since : Option ℚ) :
    Except PyError (List SearchItem) × Option BM25Store :=
  let doc_count := coll.length
  if doc_count = 0 then (Except.ok [], store)
  else
    match load_cached_index store doc_count with
    | none =>
        if (collDocs coll).isEmpty then (Except.ok [], store)
        else
          let index := BM25Index.from_documents (collIds coll) (collDocs coll) []
          let ids := collIds coll
          let newStore := some (save_cached_index index.bm25 ids)
          (bmTail retrieve fs coll index.bm25 ids query limit globs since, newStore)
    | some (artifact, ids) =>
        (bmTail retrieve fs coll artifact ids query limit globs since, store)

/-- src/db.py `ResultSet`. -/
structure ResultSet where
  query : String
  mode : String
  title : String
  score_label : String
  items : List SearchItem
deriving DecidableEq, Repr

/-- src/db.py `BenchmarkResult`. -/
structure BenchmarkResult where
  query : String
  dense : ResultSet
  bm25 : ResultSet
deriving DecidableEq, Repr

/-- The union return type of `search`. -/
inductive SearchOut where
  | rs : ResultSet → SearchOut
  | bench : BenchmarkResult → SearchOut
deriving DecidableEq, Repr

/-- src/db.py `search`, paired with the lexical snapshot state after the
call. -/
def search (dq : DenseQuery) (retrieve : Retriever) (fs : FS) (coll : Collection)
    (store : Option BM25Store) (query : String) (limit : Nat) (globs : List String)
    (since : Option ℚ) (mode : String) (benchmark : Bool) :
    Except PyError (SearchOut × Option BM25Store) :=
  let needs_filter := !globs.isEmpty || since.isSome
  let base_limit := if benchmark then max limit 10 else limit
  let candidate_limit := if needs_filter then max (base_limit * 3) 20 else base_limit
  match _query_items dq coll fs query candidate_limit globs since with
  | Except.error e => Except.error e
  | Except.ok dense_items0 =>
      let dense_items :=
        if dense_items0.length > limit then dense_items0.take limit else dense_items0
      if benchmark then
        match _bm25_query_items retrieve fs coll store query (max limit 10) globs since with
        | (Except.error e, _) => Except.error e
        | (Except.ok bm25_items, store2) =>
            Except.ok (SearchOut.bench ⟨query,
              ⟨query, "dense", "Dense results: " ++ query, "Distance", dense_items⟩,
              ⟨query, "bm25", "BM25 results: " ++ query, "Score", bm25_items⟩⟩, store2)
      else if mode = "bm25" then
        match _bm25_query_items retrieve fs coll store query limit globs since with
        | (Except.error e, _) => Except.error e
        | (Except.ok bm25_items, store2) =>
            Except.ok (SearchOut.rs
              ⟨query, "bm25", "BM25 results: " ++ query, "Score", bm25_items⟩, store2)
      else if mode = "hybrid" then
        match _query_items dq coll fs query (max (limit * 3) 20) globs since with
        | Except.error e => Except.error e
        | Except.ok dense2 =>
            match _bm25_query_items retrieve fs coll store query (max (limit * 3) 20)
                globs since with
            | (Except.error e, _) => Except.error e
            | (Except.ok bm2, store2) =>
                let fused := rrf_fuse [dense2, bm2] 60 limit
                let fused_items := fused.map (fun f =>
                  SearchItem.mk f.item.key f.item.doc f.item.meta (some f.score))
                Except.ok (SearchOut.rs
                  ⟨query, "hybrid", "Hybrid results: " ++ query, "RRF", fused_items⟩, store2)
      else
        Except.ok (SearchOut.rs
          ⟨query, "dense", "Results for: " ++ query, "Distance", dense_items⟩, store)

/-! ## Ingestion pipeline (src/db.py `ingest`)

The document reader and the sentence splitter are external collaborators:
the reader's output (one or more documents per file, each carrying its
file path) is an input, and the splitter is a function parameter producing
nodes, each carrying its source file path, its text and whatever
`chunk_index` metadata the splitter chose to set (`ingest` reads it with
`metadata.get("chunk_index", 0)`). -/

/-- A loaded document (path + text), as the reader produces it. -/
structure SourceDoc where
  path : String
  text : String
deriving DecidableEq, Repr

/-- A chunk node produced by the splitter. -/
structure Node where
  path : String
  text : String
  chunkIndexMeta : Option Nat
  nodeId : String
deriving DecidableEq, Repr

/-- The external splitter: chunk_size, chunk_overlap, documents to nodes. -/
abbrev Splitter := Nat → Nat → List SourceDoc → List Node

/-- src/db.py `SkipEntry`. -/
structure SkipEntry where
  path : String
  chunkIndex : Nat
  reason : String
  collidesWith : Option String
deriving DecidableEq, Repr

/-- src/db.py `IndexReport` (with `report=False` the code returns only the
pair (added, skipped); the entries list is then empty here). -/
structure IndexReport where
  added : Nat
  skipped : Nat
  skipEntries : List SkipEntry
deriving DecidableEq, Repr

/-- The glob keep-test of `ingest` (src/db.py lines 110-121): the path
relative to the directory when the file is under it, else its basename;
a document passes when a pattern matches that string or the full path. -/
def relStr (dir p : String) : String :=
  match relTo dir p with
  | some r => r
  | none => baseName p

/-- A document passes the ingest glob pre-filter iff some pattern matches
`relStr` or some pattern matches the full source path. -/
def ingestGlobKeep (dir : String) (globs : List String) (p : String) : Bool :=
  globs.any (fun pat => fnmatch (relStr dir p) pat)
    || globs.any (fun pat => fnmatch p pat)

/-- The `since_timestamp` pre-filter: keep documents with mtime ≥ cutoff;
`Path.stat` raises on a missing path. -/
def sinceFilter (fs : FS) (cutoff : ℚ) :
    List SourceDoc → Except PyError (List SourceDoc)
  | [] => Except.ok []
  | d :: rest =>
      match statE fs d.path with
      | Except.error e => Except.error e
      | Except.ok st =>
          if st.mtime ≥ cutoff
          then (sinceFilter fs cutoff rest).map (fun l => d :: l)
          else sinceFilter fs cutoff rest

/-- The whole-document pre-filter of `ingest` (src/db.py lines 105-131):
glob filter, then mtime filter, both before chunking. -/
def prefilterDocs (fs : FS) (dir : String) (globs : List String)
    (since : Option ℚ) (docs : List SourceDoc) : Except PyError (List SourceDoc) :=
  let docs1 :=
    if globs.isEmpty then docs else docs.filter (fun d => ingestGlobKeep dir globs d.path)
  match since with
  | none => Except.ok docs1
  | some cutoff => sinceFilter fs cutoff docs1

/-- The skip-eligibility test (src/db.py lines 151-156): an entry exists,
is marked indexed, and its recorded mtime and size equal the current stat. -/
def skipEligible (entry : Option CacheEntry) (st : FileStat) : Bool :=
  match entry with
  | none => false
  | some e => e.indexed && decide (e.mtime = st.mtime) && decide (e.size = st.size)

/-- The cache-consultation loop (src/db.py lines 142-173): skip-eligible
documents are recorded as `unchanged_file`; the others get a provisional
`indexed=false` entry in the updates dict and survive. Returns
(updates, surviving documents, skipped count, skip entries). -/
def cacheCheck (fs : FS) (cache : List (String × CacheEntry)) (report : Bool) :
    List (String × CacheEntry) → List SourceDoc →
      Except PyError (List (String × CacheEntry) × List SourceDoc × Nat × List SkipEntry)
  | updates, [] => Except.ok (updates, [], 0, [])
  | updates, d :: rest =>
      match statE fs d.path with
      | Except.error e => Except.error e
      | Except.ok st =>
          if skipEligible (lookupStr cache d.path) st then
            match cacheCheck fs cache report updates rest with
            | Except.error e => Except.error e
            | Except.ok (u, f, n, es) =>
                Except.ok (u, f, n + 1,
                  (if report then [SkipEntry.mk d.path 0 "unchanged_file" none] else []) ++ es)
          else
            match cacheCheck fs cache report
                (setStr updates d.path ⟨st.mtime, st.size, false⟩) rest with
            | Except.error e => Except.error e
            | Except.ok (u, f, n, es) => Except.ok (u, d :: f, n, es)

/-- Node preparation (src/db.py lines 198-215): chunk id from the identity
hash, display text `filename + blank line + text`, metadata record. -/
def prepNodes (md5 : String → String) (fs : FS) :
    List Node → Except PyError (List (String × String × ChunkMeta))
  | [] => Except.ok []
  | n :: rest =>
      let idx := n.chunkIndexMeta.getD 0
      let cid := identify md5 n.path idx n.text
      match statE fs n.path with
      | Except.error e => Except.error e
      | Except.ok st =>
          let dtext := baseName n.path ++ "\n\n" ++ n.text
          let meta : ChunkMeta := ⟨n.path, baseName n.path, extOf n.path, st.size, idx, n.nodeId⟩
          (prepNodes md5 fs rest).map (fun l => (cid, dtext, meta) :: l)

/-- The dedup classification (src/db.py lines 217-254): ids already in the
collection are `already_indexed`; a repeat within the pending batch is
`duplicate_content`, recording the first path seen for the id; the rest is
pending. Returns (pending, extra skipped count, skip entries). -/
def classify (coll : Collection) (report : Bool) :
    List (String × String) → List (String × String × ChunkMeta) →
      List (String × String × ChunkMeta) × Nat × List SkipEntry
  | _, [] => ([], 0, [])
  | seen, (cid, dtext, m) :: rest =>
      if collHas coll cid then
        let r := classify coll report seen rest
        (r.1, r.2.1 + 1,
          (if report then [SkipEntry.mk m.path m.chunkIndex "already_indexed" none] else [])
            ++ r.2.2)
      else
        match lookupStr seen cid with
        | some orig =>
            let r := classify coll report seen rest
            (r.1, r.2.1 + 1,
              (if report then [SkipEntry.mk m.path m.chunkIndex "duplicate_content" (some orig)]
               else []) ++ r.2.2)
        | none =>
            let r := classify coll report ((cid, m.path) :: seen) rest
            ((cid, dtext, m) :: r.1, r.2.1, r.2.2)

/-- Mark every surviving document's cache entry `indexed=true`
(src/db.py lines 303-306). -/
def markIndexed (updates : List (String × CacheEntry)) :
    List SourceDoc → List (String × CacheEntry)
  | [] => updates
  | d :: rest =>
      match lookupStr updates d.path with
      | some e => markIndexed (setStr updates d.path ⟨e.mtime, e.size, true⟩) rest
      | none => markIndexed updates rest

/-- The observable outcome of one `ingest` run. -/
structure IngestResult where
  report : IndexReport
  coll : Collection
  cacheStore : Option CacheFile
deriving DecidableEq, Repr

/-- src/db.py `ingest`: pre-filter whole documents, consult the file cache,
chunk the survivors, compute chunk ids, dedup against the collection and
the pending batch, upsert in batches, then mark the cache and persist it.
Early returns (no documents, nothing to chunk, dry run) leave the
collection and the cache store untouched. -/
def ingest (md5 : String → String) (split : Splitter) (fs : FS)
    (docs : List SourceDoc) (dir : String) (globs : List String) (since : Option ℚ)
    (chunk_size chunk_overlap : Nat) (report dry_run : Bool)
    (coll : Collection) (cacheStore : Option CacheFile) : Except PyError IngestResult :=
  match prefilterDocs fs dir globs since docs with
  | Except.error e => Except.error e
  | Except.ok docs1 =>
      if docs1.isEmpty then Except.ok ⟨⟨0, 0, []⟩, coll, cacheStore⟩
      else
        let cache := load_file_cache cacheStore chunk_size chunk_overlap
        match cacheCheck fs cache report cache docs1 with
        | Except.error e => Except.error e
        | Except.ok (updates, filtered, skippedCache, entries1) =>
            if filtered.isEmpty then
              Except.ok ⟨⟨0, skippedCache, entries1⟩, coll, cacheStore⟩
            else
              let nodes := split chunk_size chunk_overlap filtered
              match prepNodes md5 fs nodes with
              | Except.error e => Except.error e
              | Except.ok nd =>
                  let r := classify coll report [] nd
                  let skipped := skippedCache + r.2.1
                  let entries := entries1 ++ r.2.2
                  if dry_run then
                    Except.ok ⟨⟨r.1.length, skipped, entries⟩, coll, cacheStore⟩
                  else
                    let coll2 := collUpsert coll
                      (r.1.map (fun t => ChunkRecord.mk t.1 t.2.1 t.2.2))
                    let updates2 := markIndexed updates filtered
                    Except.ok ⟨⟨r.1.length, skipped, entries⟩, coll2,
                      some (save_file_cache updates2 chunk_size chunk_overlap)⟩

/-! ## Pruning (src/db.py `prune`) -/

/-- A chunk is orphaned when its recorded path is empty or no longer exists. -/
def isOrphanB (fs : FS) (r : ChunkRecord) : Bool :=
  decide (r.meta.path = "") || !(existsFS fs r.meta.path)

/-- The scan loop with its memoized existence checks (`checked_paths`).
Returns (orphan ids in order, final memo). -/
def pruneScan (fs : FS) :
    List (String × Bool) → Collection → List String × List (String × Bool)
  | memo, [] => ([], memo)
  | memo, r :: rest =>
      if r.meta.path = "" then
        let o := pruneScan fs memo rest
        (r.id :: o.1, o.2)
      else
        match lookupStr memo r.meta.path with
        | some b =>
            let o := pruneScan fs memo rest
            if b then o else (r.id :: o.1, o.2)
        | none =>
            let b := existsFS fs r.meta.path
            let o := pruneScan fs (setStr memo r.meta.path b) rest
            if b then o else (r.id :: o.1, o.2)

/-- The observable outcome of one `prune` run. -/
structure PruneResult where
  orphanCount : Nat
  totalChunks : Nat
  coll : Collection
  cacheStore : Option CacheFile
deriving DecidableEq, Repr

/-- src/db.py `prune`: scan all chunk metadata, delete orphans in batches
unless dry-run, and clean dead paths out of the file cache (only when at
least one orphan was found; the stored chunking configuration is kept). -/
def prune (fs : FS) (coll : Collection) (cacheStore : Option CacheFile)
    (dry_run : Bool) : PruneResult :=
  if coll.isEmpty then ⟨0, 0, coll, cacheStore⟩
  else
    let orphans := (pruneScan fs [] coll).1
    let total := coll.length
    if orphans.length = 0 then ⟨0, total, coll, cacheStore⟩
    else if dry_run then ⟨orphans.length, total, coll, cacheStore⟩
    else
      let coll2 := collDelete coll orphans
      let cacheStore2 :=
        match cacheStore with
        | none => none
        | some c => some (CacheFile.mk c.chunkSize c.chunkOverlap
            (c.files.filter (fun kv => existsFS fs kv.1)))
      ⟨orphans.length, total, coll2, cacheStore2⟩

/-- A scorer satisfying the bm25s contract: top-k results, failing only
when `k` exceeds the corpus size (used to instantiate witnesses). -/
def exRetrieve : Retriever := fun _ ids _ k =>
  Except.ok (ids.take k, (ids.take k).map (fun _ => 0))

/-- A one-document index for witnesses. -/
def exIdx : BM25Index := ⟨["i1"], ["d1"], [], ["d1"]⟩

/-- A stale persisted snapshot for the C3 counterexample. -/
def staleStore : BM25Store := ⟨3, ["a", "b", "c"], ["x", "y", "z"]⟩

/-- A one-chunk collection for witnesses. -/
def exColl : Collection := [⟨"i1", "d1", exMeta⟩]

/-- A search hit whose recorded source file has vanished. -/
def gItem : SearchItem := ⟨"id1", "doc", ⟨"/gone.md", "gone.md", ".md", 1, 0, "n1"⟩, some 0⟩

/-- A dense query returning that hit. -/
def gQuery : DenseQuery := fun _ _ _ => [gItem]

/-- A two-file filesystem for the C5 witness. -/
def fsW : FS := [("/a.md", ⟨10, 1⟩), ("/b.md", ⟨0, 1⟩)]

/-- A hit on the recently modified file. -/
def iA : SearchItem := ⟨"ka", "da", ⟨"/a.md", "a.md", ".md", 1, 0, "na"⟩, some 0⟩

/-- A hit on the stale file. -/
def iB : SearchItem := ⟨"kb", "db", ⟨"/b.md", "b.md", ".md", 1, 0, "nb"⟩, some 0⟩

/-- A dense query with no hits, for the C6 witness. -/
def emptyQuery : DenseQuery := fun _ _ _ => []

/-- Memo soundness: every cached existence answer is the real one. -/
def MemoOk (fs : FS) (memo : List (String × Bool)) : Prop :=
  ∀ p b, lookupStr memo p = some b → b = existsFS fs p

/-- A filesystem and collection for the C9 witness: two chunks, one of
which references a vanished path; the cache holds both paths. -/
def fsP : FS := [("/a.md", ⟨0, 1⟩)]

/-- The surviving chunk. -/
def rKeep : ChunkRecord := ⟨"c1", "d1", ⟨"/a.md", "a.md", ".md", 1, 0, "n1"⟩⟩

/-- The orphaned chunk (its path vanished). -/
def rGone : ChunkRecord := ⟨"c2", "d2", ⟨"/gone.md", "gone.md", ".md", 1, 0, "n2"⟩⟩

/-- The pre-prune collection. -/
def collP : Collection := [rKeep, rGone]

/-- The pre-prune cache store. -/
def cacheP : Option CacheFile :=
  some ⟨512, 50, [("/a.md", ⟨0, 1, true⟩), ("/gone.md", ⟨0, 1, true⟩)]⟩

/-- Whether a path would be skipped as unchanged against a given cache
(its stat exists and matches an indexed entry). -/
def willSkipB (fs : FS) (cache : List (String × CacheEntry)) (p : String) : Bool :=
  match lookupStr fs p with
  | none => false
  | some st => skipEligible (lookupStr cache p) st

/-- The skip entry recorded for an unchanged file. -/
def mkUnchanged (d : SourceDoc) : SkipEntry :=
  SkipEntry.mk d.path 0 "unchanged_file" none

/-- A one-file filesystem for the C1 witness. -/
def fsI : FS := [("/w/a.md", ⟨3, 5⟩)]

/-- The reader's output for that file. -/
def docsI : List SourceDoc := [⟨"/w/a.md", "hello"⟩]

/-- A one-node-per-document splitter. -/
def splitI : Splitter := fun _ _ ds => ds.map (fun d => ⟨d.path, d.text, none, "n0"⟩)

/-- The outcome of the first ingest run on that state (hash = identity). -/
def r1I : IngestResult :=
  ⟨⟨1, 0, []⟩,
   [⟨"/w/a.md:0:hello", "a.md\n\nhello", ⟨"/w/a.md", "a.md", ".md", 5, 0, "n0"⟩⟩],
   some ⟨512, 50, [("/w/a.md", ⟨3, 5, true⟩)]⟩⟩

/-! ## Theorems -/

theorem lookupStr_setStr_self {α : Type} (l : List (String × α)) (key : String) (v : α) :
    lookupStr (setStr l key v) key = some v := by
  induction l with
  | nil => simp [setStr, lookupStr]
  | cons hd tl ih =>
      obtain ⟨k, w⟩ := hd
      by_cases h : k = key
      · simp [setStr, h, lookupStr]
      · simp [setStr, h, lookupStr, ih]

theorem lookupStr_setStr_ne {α : Type} (l : List (String × α)) (key key' : String) (v : α)
    (h : key' ≠ key) : lookupStr (setStr l key v) key' = lookupStr l key' := by
  have hne : ¬key = key' := fun he => h he.symm
  induction l with
  | nil => simp [setStr, lookupStr, hne]
  | cons hd tl ih =>
      obtain ⟨k, w⟩ := hd
      by_cases hk : k = key
      · subst hk
        simp [setStr, lookupStr, hne]
      · by_cases hk' : k = key'
        · simp [setStr, hk, lookupStr, hk', h]
        · simp [setStr, hk, lookupStr, hk', ih]

theorem lookupStr_append_right {α : Type} (l l' : List (String × α)) (key : String)
    (h : lookupStr l key = none) : lookupStr (l ++ l') key = lookupStr l' key := by
  induction l with
  | nil => simp
  | cons hd tl ih =>
      obtain ⟨k, w⟩ := hd
      by_cases hk : k = key
      · simp [lookupStr, hk] at h
      · simp only [lookupStr, hk, if_false, List.cons_append] at h ⊢
        simp [lookupStr, hk]
        exact ih h

theorem lookupStr_append_left {α : Type} (l l' : List (String × α)) (key : String)
    (v : α) (h : lookupStr l key = some v) : lookupStr (l ++ l') key = some v := by
  induction l with
  | nil => simp [lookupStr] at h
  | cons hd tl ih =>
      obtain ⟨k, w⟩ := hd
      by_cases hk : k = key
      · simp only [lookupStr, hk, if_true] at h
        simp [lookupStr, hk, h]
      · simp only [lookupStr, hk, if_false] at h
        simp only [List.cons_append, lookupStr, hk, if_false]
        exact ih h

theorem digitChar_inj_lt {a b : Nat} (ha : a < 10) (hb : b < 10)
    (h : Nat.digitChar a = Nat.digitChar b) : a = b := by
  have hf : ∀ x y : Fin 10, Nat.digitChar x.val = Nat.digitChar y.val → x = y := by decide
  have := hf ⟨a, ha⟩ ⟨b, hb⟩ h
  exact congrArg Fin.val this

theorem map_digitChar_inj :
    ∀ (l1 l2 : List Nat), (∀ d ∈ l1, d < 10) → (∀ d ∈ l2, d < 10) →
      l1.map Nat.digitChar = l2.map Nat.digitChar → l1 = l2
  | [], [], _, _, _ => rfl
  | [], _ :: _, _, _, h => by simp at h
  | _ :: _, [], _, _, h => by simp at h
  | a :: l1, b :: l2, h1, h2, h => by
      simp only [List.map_cons, List.cons.injEq] at h
      have ha := h1 a (by simp)
      have hb := h2 b (by simp)
      have hab := digitChar_inj_lt ha hb h.1
      have ih := map_digitChar_inj l1 l2 (fun d hd => h1 d (by simp [hd]))
        (fun d hd => h2 d (by simp [hd])) h.2
      rw [hab, ih]

theorem natRepr_singleton_zero {n : Nat} (hn : n ≠ 0)
    (h : ['0'] = (Nat.digits 10 n).reverse.map Nat.digitChar) : False := by
  have hlen : (1 : Nat) = (Nat.digits 10 n).length := by
    have := congrArg List.length h
    simpa using this
  obtain ⟨d, hdig⟩ : ∃ d, Nat.digits 10 n = [d] := by
    match hq : Nat.digits 10 n with
    | [] => rw [hq] at hlen; simp at hlen
    | [d] => exact ⟨d, rfl⟩
    | d1 :: d2 :: rest => rw [hq] at hlen; simp at hlen
  rw [hdig] at h
  simp only [List.reverse_singleton, List.map_cons, List.map_nil, List.cons.injEq] at h
  have hd10 : d < 10 := Nat.digits_lt_base (by norm_num) (by rw [hdig]; simp)
  have hd0 : d = 0 := by
    have h0 : Nat.digitChar 0 = '0' := rfl
    exact (digitChar_inj_lt (by norm_num) hd10 (by rw [h0, ← h.1])).symm
  have h1 := Nat.ofDigits_digits 10 n
  rw [hdig, hd0] at h1
  simp [Nat.ofDigits] at h1
  exact hn h1.symm

theorem natRepr_inj {m n : Nat} (h : natRepr m = natRepr n) : m = n := by
  have hd : (if m = 0 then ['0'] else ((Nat.digits 10 m).reverse.map Nat.digitChar))
          = (if n = 0 then ['0'] else ((Nat.digits 10 n).reverse.map Nat.digitChar)) := by
    have := congrArg String.data h
    simpa [natRepr] using this
  by_cases hm : m = 0 <;> by_cases hn : n = 0
  · rw [hm, hn]
  · rw [if_pos hm, if_neg hn] at hd
    exact absurd hd (fun h' => (natRepr_singleton_zero hn h').elim)
  · rw [if_neg hm, if_pos hn] at hd
    exact absurd hd.symm (fun h' => (natRepr_singleton_zero hm h').elim)
  · rw [if_neg hm, if_neg hn] at hd
    have h10 : (1 : Nat) < 10 := by norm_num
    have hm' := map_digitChar_inj ((Nat.digits 10 m).reverse) ((Nat.digits 10 n).reverse)
      (fun d hd' => Nat.digits_lt_base h10 (List.mem_reverse.mp hd'))
      (fun d hd' => Nat.digits_lt_base h10 (List.mem_reverse.mp hd')) hd
    have hdig : Nat.digits 10 m = Nat.digits 10 n := by
      have := congrArg List.reverse hm'
      simpa using this
    calc m = Nat.ofDigits 10 (Nat.digits 10 m) := (Nat.ofDigits_digits 10 m).symm
      _ = Nat.ofDigits 10 (Nat.digits 10 n) := by rw [hdig]
      _ = n := Nat.ofDigits_digits 10 n

theorem identifyKey_data (p : String) (i : Nat) (t : String) :
    (identifyKey p i t).data
      = p.data ++ ':' :: ((natRepr i).data ++ ':' :: t.data) := by
  have hc : (":" : String).data = [':'] := rfl
  simp [identifyKey, String.data_append, hc]

theorem identifyKey_inj_comp (p p' t t' : String) (i i' : Nat)
    (h : identifyKey p i t = identifyKey p' i' t') :
    (p = p' → t = t' → i = i') ∧ (i = i' → t = t' → p = p') ∧ (p = p' → i = i' → t = t') := by
  have hd := congrArg String.data h
  rw [identifyKey_data, identifyKey_data] at hd
  refine ⟨?_, ?_, ?_⟩
  · intro hp ht
    subst hp; subst ht
    have h1 := List.append_cancel_left hd
    simp only [List.cons.injEq, true_and] at h1
    have h2 := List.append_cancel_right h1
    exact natRepr_inj (String.ext h2)
  · intro hi ht
    subst hi; subst ht
    have h1 : p.data ++ (':' :: ((natRepr i).data ++ ':' :: t.data))
            = p'.data ++ (':' :: ((natRepr i).data ++ ':' :: t.data)) := hd
    exact String.ext (List.append_cancel_right h1)
  · intro hp hi
    subst hp; subst hi
    have h1 := List.append_cancel_left hd
    simp only [List.cons.injEq, true_and] at h1
    have h2 := List.append_cancel_left h1
    simp only [List.cons.injEq, true_and] at h2
    exact String.ext h2

/-- C4: the id of every chunk produced during ingestion is a deterministic
hash over (source path, chunk position, chunk text) joined by a separator;
fixed inputs yield the same id (it is a function), and a difference in
exactly one of the three inputs yields a different pre-hash string, hence a
different id except when the hash function itself collides on two distinct
strings. -/
theorem chunk_id_content_addressed (md5 : String → String) (p p' t t' : String) (i i' : Nat)
    (hdiff : (p ≠ p' ∧ i = i' ∧ t = t') ∨ (p = p' ∧ i ≠ i' ∧ t = t')
      ∨ (p = p' ∧ i = i' ∧ t ≠ t')) :
    identifyKey p i t ≠ identifyKey p' i' t' ∧
      (identify md5 p i t = identify md5 p' i' t' →
        ∃ a b : String, a ≠ b ∧ md5 a = md5 b) := by
  have hkey : identifyKey p i t ≠ identifyKey p' i' t' := by
    intro he
    have hc := identifyKey_inj_comp p p' t t' i i' he
    rcases hdiff with ⟨hp, hi, ht⟩ | ⟨hp, hi, ht⟩ | ⟨hp, hi, ht⟩
    · exact hp (hc.2.1 hi ht)
    · exact hi (hc.1 hp ht)
    · exact ht (hc.2.2 hp hi)
  exact ⟨hkey, fun he => ⟨_, _, hkey, he⟩⟩

/-- Witness for C4 at a concrete input: same file, same text, two distinct
chunk positions give distinct ids (here the hash parameter is the identity,
which has no collisions). -/
theorem chunk_id_content_addressed_witness :
    ((("a.md" : String) = "a.md" ∧ (0 : Nat) ≠ 1 ∧ ("x" : String) = "x")) ∧
    (identifyKey "a.md" 0 "x" ≠ identifyKey "a.md" 1 "x" ∧
      (identify (fun s => s) "a.md" 0 "x" = identify (fun s => s) "a.md" 1 "x" →
        ∃ a b : String, a ≠ b ∧ (fun s : String => s) a = (fun s : String => s) b)) :=
  ⟨⟨rfl, by decide, rfl⟩,
   chunk_id_content_addressed (fun s => s) "a.md" "a.md" "x" "x" 0 1
     (Or.inr (Or.inl ⟨rfl, by decide, rfl⟩))⟩

theorem lookupStr_mem {α : Type} :
    ∀ (l : List (String × α)) (key : String) (v : α),
      lookupStr l key = some v → (key, v) ∈ l := by
  intro l
  induction l with
  | nil => intro key v h; simp [lookupStr] at h
  | cons hd tl ih =>
      intro key v h
      obtain ⟨k, w⟩ := hd
      by_cases hk : k = key
      · subst hk
        simp [lookupStr] at h
        rw [← h]
        exact List.mem_cons_self _ _
      · simp only [lookupStr, if_neg hk] at h
        exact List.mem_cons_of_mem _ (ih key v h)

theorem lookupStr_none_not_mem {α : Type} :
    ∀ (l : List (String × α)) (key : String),
      lookupStr l key = none → key ∉ l.map Prod.fst := by
  intro l
  induction l with
  | nil => intro key _h; simp
  | cons hd tl ih =>
      intro key h
      obtain ⟨k, w⟩ := hd
      by_cases hk : k = key
      · simp [lookupStr, hk] at h
      · simp only [lookupStr, if_neg hk] at h
        simp only [List.map_cons, List.mem_cons]
        rintro (he | he)
        · exact hk he.symm
        · exact ih key h he

theorem mem_setStr {α : Type} :
    ∀ (l : List (String × α)) (key : String) (v : α) (x : String × α),
      x ∈ setStr l key v → x = (key, v) ∨ x ∈ l := by
  intro l
  induction l with
  | nil => intro key v x h; simp [setStr] at h; exact Or.inl h
  | cons hd tl ih =>
      intro key v x h
      obtain ⟨k, w⟩ := hd
      by_cases hk : k = key
      · subst hk
        rw [show setStr ((k, w) :: tl) k v = (k, v) :: tl from by simp [setStr]] at h
        rcases List.mem_cons.mp h with h | h
        · exact Or.inl h
        · exact Or.inr (List.mem_cons_of_mem _ h)
      · rw [show setStr ((k, w) :: tl) key v = (k, w) :: setStr tl key v from by
              simp [setStr, hk]] at h
        rcases List.mem_cons.mp h with h | h
        · exact Or.inr (by simp [h])
        · rcases ih key v x h with h' | h'
          · exact Or.inl h'
          · exact Or.inr (List.mem_cons_of_mem _ h')

theorem setStr_map_fst {α : Type} :
    ∀ (l : List (String × α)) (key : String) (v w : α),
      lookupStr l key = some w → (setStr l key v).map Prod.fst = l.map Prod.fst := by
  intro l
  induction l with
  | nil => intro key v w h; simp [lookupStr] at h
  | cons hd tl ih =>
      intro key v w h
      obtain ⟨k, u⟩ := hd
      by_cases hk : k = key
      · simp [setStr, hk]
      · simp only [lookupStr, if_neg hk] at h
        simp only [setStr, if_neg hk, List.map_cons]
        rw [ih key v w h]

theorem mem_lookupStr_of_nodup {α : Type} :
    ∀ (l : List (String × α)) (kk : String) (v : α),
      (l.map Prod.fst).Nodup → (kk, v) ∈ l → lookupStr l kk = some v := by
  intro l
  induction l with
  | nil => intro kk v _ h; simp at h
  | cons hd tl ih =>
      intro kk v hnd h
      obtain ⟨k, w⟩ := hd
      simp only [List.map_cons, List.nodup_cons] at hnd
      rcases List.mem_cons.mp h with he | hmem
      · obtain ⟨rfl, rfl⟩ : k = kk ∧ w = v := by
          have h1 := congrArg Prod.fst he.symm
          have h2 := congrArg Prod.snd he.symm
          exact ⟨h1, h2⟩
        simp [lookupStr]
      · by_cases hk : k = kk
        · exfalso
          apply hnd.1
          subst hk
          exact List.mem_map_of_mem Prod.fst hmem
        · simp only [lookupStr, if_neg hk]
          exact ih kk v hnd.2 hmem

theorem mem_insertDesc (x a : FusedItem) :
    ∀ (l : List FusedItem), a ∈ insertDesc x l ↔ a = x ∨ a ∈ l := by
  intro l
  induction l with
  | nil => simp [insertDesc]
  | cons y ys ih =>
      by_cases h : y.score < x.score
      · simp only [insertDesc, if_pos h, List.mem_cons] <;> tauto
      · simp only [insertDesc, if_neg h, List.mem_cons, ih] <;> tauto

theorem mem_sortDesc (a : FusedItem) (l : List FusedItem) :
    a ∈ sortDesc l ↔ a ∈ l := by
  suffices h : ∀ (l acc : List FusedItem),
      a ∈ l.foldl (fun acc x => insertDesc x acc) acc ↔ a ∈ acc ∨ a ∈ l by
    have := h l []
    simpa [sortDesc] using this
  intro l
  induction l with
  | nil => intro acc; simp
  | cons x xs ih =>
      intro acc
      simp only [List.foldl_cons]
      rw [ih (insertDesc x acc), mem_insertDesc]
      simp [List.mem_cons]
      tauto

theorem insertDesc_sorted (x : FusedItem) :
    ∀ (l : List FusedItem), List.Pairwise (fun a b => b.score ≤ a.score) l →
      List.Pairwise (fun a b => b.score ≤ a.score) (insertDesc x l) := by
  intro l
  induction l with
  | nil => intro _; simp [insertDesc]
  | cons y ys ih =>
      intro hp
      rw [List.pairwise_cons] at hp
      by_cases h : y.score < x.score
      · simp only [insertDesc, if_pos h]
        rw [List.pairwise_cons]
        constructor
        · intro b hb
          rcases List.mem_cons.mp hb with rfl | hb'
          · exact le_of_lt h
          · exact le_trans (hp.1 b hb') (le_of_lt h)
        · exact List.pairwise_cons.mpr hp
      · simp only [insertDesc, if_neg h]
        rw [List.pairwise_cons]
        constructor
        · intro b hb
          rcases (mem_insertDesc x b ys).mp hb with rfl | hb'
          · exact le_of_not_lt h
          · exact hp.1 b hb'
        · exact ih hp.2

theorem sortDesc_sorted (l : List FusedItem) :
    List.Pairwise (fun a b => b.score ≤ a.score) (sortDesc l) := by
  suffices h : ∀ (l acc : List FusedItem),
      List.Pairwise (fun a b => b.score ≤ a.score) acc →
        List.Pairwise (fun a b => b.score ≤ a.score)
          (l.foldl (fun acc x => insertDesc x acc) acc) by
    exact h l [] (by simp)
  intro l
  induction l with
  | nil => intro acc h; simpa using h
  | cons x xs ih =>
      intro acc h
      simp only [List.foldl_cons]
      exact ih (insertDesc x acc) (insertDesc_sorted x acc h)

theorem contribFrom_zero (k : Nat) (key : String) :
    ∀ (l : List SearchItem) (rank : Nat), (∀ it ∈ l, it.key ≠ key) →
      contribFrom k key rank l = 0 := by
  intro l
  induction l with
  | nil => intro rank _; rfl
  | cons it rest ih =>
      intro rank h
      have hne : it.key ≠ key := h it (List.mem_cons_self _ _)
      simp only [contribFrom, if_neg hne, zero_add]
      exact ih (rank + 1) (fun x hx => h x (List.mem_cons_of_mem _ hx))

theorem rrfList_lookup_some (k : Nat) (key : String) :
    ∀ (items : List SearchItem) (scores : List (String × SearchItem × ℚ))
      (rank : Nat) (it : SearchItem) (s : ℚ),
      lookupStr scores key = some (it, s) →
        lookupStr (rrfList k scores rank items) key
          = some (it, s + contribFrom k key rank items) := by
  intro items
  induction items with
  | nil => intro scores rank it s h; simpa [rrfList, contribFrom] using h
  | cons item rest ih =>
      intro scores rank it s h
      simp only [rrfList]
      by_cases hk : item.key = key
      · have hadd : lookupStr scores item.key = some (it, s) := by rw [hk]; exact h
        have : rrfAdd k scores rank item
            = setStr scores item.key (it, s + 1 / ((k + rank : Nat) : ℚ)) := by
          simp [rrfAdd, hadd]
        rw [this, hk]
        have hlook := lookupStr_setStr_self scores key (it, s + 1 / ((k + rank : Nat) : ℚ))
        have := ih _ (rank + 1) it (s + 1 / ((k + rank : Nat) : ℚ)) hlook
        rw [this]
        simp only [contribFrom, if_pos hk]
        ring_nf
      · have hlook : lookupStr (rrfAdd k scores rank item) key = some (it, s) := by
          unfold rrfAdd
          cases hadd : lookupStr scores item.key with
          | none => exact lookupStr_append_left scores _ key (it, s) h
          | some p =>
              obtain ⟨it0, s0⟩ := p
              exact (lookupStr_setStr_ne scores item.key key _
                (fun he => hk he.symm)).trans h
        have := ih _ (rank + 1) it s hlook
        rw [this]
        simp only [contribFrom, if_neg hk, zero_add]

theorem rrfList_lookup_none (k : Nat) (key : String) :
    ∀ (items : List SearchItem) (scores : List (String × SearchItem × ℚ)) (rank : Nat),
      lookupStr scores key = none →
        lookupStr (rrfList k scores rank items) key
          = (items.find? (fun it => it.key == key)).map
              (fun it => (it, contribFrom k key rank items)) := by
  intro items
  induction items with
  | nil => intro scores rank h; simpa [rrfList, List.find?] using h
  | cons item rest ih =>
      intro scores rank h
      simp only [rrfList]
      by_cases hk : item.key = key
      · have hadd : lookupStr scores item.key = none := by rw [hk]; exact h
        have hra : rrfAdd k scores rank item
            = scores ++ [(item.key, (item, 1 / ((k + rank : Nat) : ℚ)))] := by
          simp [rrfAdd, hadd]
        have hlook : lookupStr (rrfAdd k scores rank item) key
            = some (item, 1 / ((k + rank : Nat) : ℚ)) := by
          rw [hra, lookupStr_append_right scores _ key h]
          simp [lookupStr, hk]
        have := rrfList_lookup_some k key rest _ (rank + 1) item _ hlook
        rw [this]
        have hfind : (item :: rest).find? (fun it => it.key == key) = some item :=
          List.find?_cons_of_pos _ (by simp [hk])
        rw [hfind]
        simp only [Option.map_some', contribFrom, if_pos hk]
      · have hlook : lookupStr (rrfAdd k scores rank item) key = none := by
          unfold rrfAdd
          cases hadd : lookupStr scores item.key with
          | none =>
              rw [lookupStr_append_right scores _ key h]
              simp [lookupStr, hk]
          | some p =>
              obtain ⟨it0, s0⟩ := p
              exact (lookupStr_setStr_ne scores item.key key _
                (fun he => hk he.symm)).trans h
        have := ih _ (rank + 1) hlook
        rw [this]
        have hfind : (item :: rest).find? (fun it => it.key == key)
            = rest.find? (fun it => it.key == key) :=
          List.find?_cons_of_neg _ (by simp [hk])
        rw [hfind]
        simp only [contribFrom, if_neg hk, zero_add]

theorem rrfAll_lookup_some (k : Nat) (key : String) :
    ∀ (lists : List (List SearchItem)) (scores : List (String × SearchItem × ℚ))
      (it : SearchItem) (s : ℚ),
      lookupStr scores key = some (it, s) →
        lookupStr (rrfAll k scores lists) key
          = some (it, s + totalContrib k key lists) := by
  intro lists
  induction lists with
  | nil => intro scores it s h; simpa [rrfAll, totalContrib] using h
  | cons l ls ih =>
      intro scores it s h
      simp only [rrfAll]
      have h1 := rrfList_lookup_some k key l scores 1 it s h
      have := ih _ it _ h1
      rw [this]
      simp only [totalContrib, List.map_cons, List.sum_cons]
      ring_nf

theorem rrfAll_lookup_none (k : Nat) (key : String) :
    ∀ (lists : List (List SearchItem)) (scores : List (String × SearchItem × ℚ)),
      lookupStr scores key = none →
        lookupStr (rrfAll k scores lists) key
          = (lists.findSome? (fun l => l.find? (fun it => it.key == key))).map
              (fun it => (it, totalContrib k key lists)) := by
  intro lists
  induction lists with
  | nil => intro scores h; simpa [rrfAll, List.findSome?] using h
  | cons l ls ih =>
      intro scores h
      simp only [rrfAll]
      cases hfind : l.find? (fun it => it.key == key) with
      | some it =>
          have h1 := rrfList_lookup_none k key l scores 1 h
          rw [hfind] at h1
          simp only [Option.map_some'] at h1
          have := rrfAll_lookup_some k key ls _ it _ h1
          rw [this]
          rw [List.findSome?_cons, hfind]
          simp only [Option.map_some', totalContrib, List.map_cons, List.sum_cons]
      | none =>
          have h1 := rrfList_lookup_none k key l scores 1 h
          rw [hfind] at h1
          simp only [Option.map_none'] at h1
          have := ih _ h1
          rw [this]
          rw [List.findSome?_cons, hfind]
          have hz : contribFrom k key 1 l = 0 := by
            apply contribFrom_zero
            intro it hit hkey
            have := List.find?_eq_none.mp hfind it hit
            simp [hkey] at this
          simp only [totalContrib, List.map_cons, List.sum_cons, hz, zero_add]

theorem rrfAdd_ok (k : Nat) (scores : List (String × SearchItem × ℚ)) (rank : Nat)
    (item : SearchItem) (h : ScoresOk scores) : ScoresOk (rrfAdd k scores rank item) := by
  unfold rrfAdd
  cases hadd : lookupStr scores item.key with
  | none =>
      constructor
      · have hnot := lookupStr_none_not_mem scores item.key hadd
        simp [List.nodup_append, h.1, hnot]
      · intro e he
        rcases List.mem_append.mp he with he' | he'
        · exact h.2 e he'
        · simp at he'
          rw [he']
  | some p =>
      obtain ⟨it, s⟩ := p
      constructor
      · rw [setStr_map_fst scores item.key _ (it, s) hadd]
        exact h.1
      · intro e he
        rcases mem_setStr scores item.key _ e he with he' | he'
        · rw [he']
          exact h.2 (item.key, (it, s)) (lookupStr_mem scores item.key (it, s) hadd)
        · exact h.2 e he'

theorem rrfList_ok (k : Nat) :
    ∀ (items : List SearchItem) (scores : List (String × SearchItem × ℚ)) (rank : Nat),
      ScoresOk scores → ScoresOk (rrfList k scores rank items) := by
  intro items
  induction items with
  | nil => intro scores rank h; exact h
  | cons item rest ih =>
      intro scores rank h
      exact ih _ (rank + 1) (rrfAdd_ok k scores rank item h)

theorem rrfAll_ok (k : Nat) :
    ∀ (lists : List (List SearchItem)) (scores : List (String × SearchItem × ℚ)),
      ScoresOk scores → ScoresOk (rrfAll k scores lists) := by
  intro lists
  induction lists with
  | nil => intro scores h; exact h
  | cons l ls ih =>
      intro scores h
      exact ih _ (rrfList_ok k l scores 1 h)

theorem findSome?_exists {α β : Type} :
    ∀ (ls : List α) (f : α → Option β) (b : β),
      ls.findSome? f = some b → ∃ l ∈ ls, f l = some b := by
  intro ls
  induction ls with
  | nil => intro f b h; simp [List.findSome?] at h
  | cons l ls ih =>
      intro f b h
      rw [List.findSome?_cons] at h
      cases hf : f l with
      | some b' =>
          rw [hf] at h
          cases h
          exact ⟨l, List.mem_cons_self _ _, hf⟩
      | none =>
          rw [hf] at h
          obtain ⟨l', hl', hf'⟩ := ih f b h
          exact ⟨l', List.mem_cons_of_mem _ hl', hf'⟩

/-- Every fused result's score is the occurrence-sum of rank reciprocals of
its chunk id over all input lists, and its item occurs in some input list. -/
theorem rrf_fuse_score_mem (lists : List (List SearchItem)) (k limit : Nat)
    (f : FusedItem) (hf : f ∈ rrf_fuse lists k limit) :
    f.score = totalContrib k f.item.key lists ∧ ∃ l ∈ lists, f.item ∈ l := by
  have hf1 : f ∈ sortDesc ((rrfAll k [] lists).map (fun e => FusedItem.mk e.2.1 e.2.2)) := by
    have := List.take_subset limit
      (sortDesc ((rrfAll k [] lists).map (fun e => FusedItem.mk e.2.1 e.2.2)))
    exact this hf
  have hf2 : f ∈ (rrfAll k [] lists).map (fun e => FusedItem.mk e.2.1 e.2.2) :=
    (mem_sortDesc f _).mp hf1
  obtain ⟨e, he, hfe⟩ := List.mem_map.mp hf2
  have hok : ScoresOk (rrfAll k [] lists) := rrfAll_ok k lists [] (by simp [ScoresOk])
  have hkey : e.2.1.key = e.1 := hok.2 e he
  have hlook : lookupStr (rrfAll k [] lists) e.1 = some e.2 := by
    apply mem_lookupStr_of_nodup _ _ _ hok.1
    simpa using he
  have hnone : lookupStr ([] : List (String × SearchItem × ℚ)) e.1 = none := rfl
  have hchar := rrfAll_lookup_none k e.1 lists [] hnone
  rw [hlook] at hchar
  cases hhit : lists.findSome? (fun l => l.find? (fun it => it.key == e.1)) with
  | none => rw [hhit] at hchar; simp at hchar
  | some it =>
      rw [hhit] at hchar
      simp only [Option.map_some', Option.some.injEq] at hchar
      have hit_eq : e.2.1 = it := congrArg Prod.fst hchar
      have hscore : e.2.2 = totalContrib k e.1 lists := congrArg Prod.snd hchar
      constructor
      · rw [← hfe]
        simpa [FusedItem.mk, hkey] using hscore
      · obtain ⟨l, hl, hfind⟩ := findSome?_exists lists _ it hhit
        refine ⟨l, hl, ?_⟩
        have := List.mem_of_find?_eq_some hfind
        rw [← hfe]
        simpa [hit_eq] using this

/-- The fused output is sorted by descending total score. -/
theorem rrf_fuse_sorted (lists : List (List SearchItem)) (k limit : Nat) :
    List.Pairwise (fun a b => b.score ≤ a.score) (rrf_fuse lists k limit) := by
  unfold rrf_fuse
  exact (sortDesc_sorted _).sublist (List.take_sublist _ _)

/-- The fused output is truncated to `limit` items. -/
theorem rrf_fuse_length (lists : List (List SearchItem)) (k limit : Nat) :
    (rrf_fuse lists k limit).length ≤ limit := by
  unfold rrf_fuse
  exact List.length_take_le _ _

theorem contribFrom_spec (k : Nat) (key : String) :
    ∀ (l : List SearchItem) (rank : Nat), (l.map SearchItem.key).Nodup →
      contribFrom k key rank l =
        if key ∈ l.map SearchItem.key
        then 1 / ((k + (rankIdx key (l.map SearchItem.key) + rank) : Nat) : ℚ)
        else 0 := by
  intro l
  induction l with
  | nil => intro rank _; simp [contribFrom]
  | cons it rest ih =>
      intro rank hnd
      simp only [List.map_cons, List.nodup_cons] at hnd
      by_cases hk : it.key = key
      · have hz : contribFrom k key (rank + 1) rest = 0 := by
          apply contribFrom_zero
          intro x hx hxk
          apply hnd.1
          rw [hk, ← hxk]
          exact List.mem_map_of_mem SearchItem.key hx
        simp only [contribFrom, if_pos hk, hz, add_zero]
        have hmem : key ∈ it.key :: rest.map SearchItem.key := by
          rw [hk]; exact List.mem_cons_self _ _
        rw [List.map_cons, if_pos hmem]
        simp [rankIdx, hk]
      · simp only [contribFrom, if_neg hk, zero_add]
        rw [ih (rank + 1) hnd.2]
        have hmem : (key ∈ it.key :: rest.map SearchItem.key)
            ↔ key ∈ rest.map SearchItem.key := by
          simp [List.mem_cons]
          intro he
          exact absurd he.symm hk
        rw [List.map_cons]
        by_cases hm : key ∈ rest.map SearchItem.key
        · rw [if_pos hm, if_pos (hmem.mpr hm)]
          have harith : k + (rankIdx key (it.key :: rest.map SearchItem.key) + rank)
              = k + (rankIdx key (rest.map SearchItem.key) + (rank + 1)) := by
            simp only [rankIdx, if_neg hk]
            omega
          rw [harith]
        · rw [if_neg hm, if_neg (fun hc => hm (hmem.mp hc))]

/-- Under duplicate-free ranked lists, the accumulated total equals the
specification's per-list rank-reciprocal sum. -/
theorem totalContrib_spec (k : Nat) (key : String) (lists : List (List SearchItem))
    (h : ∀ l ∈ lists, (l.map SearchItem.key).Nodup) :
    totalContrib k key lists = rrfSpecScore k key lists := by
  unfold totalContrib rrfSpecScore
  congr 1
  apply List.map_congr_left
  intro l hl
  exact contribFrom_spec k key l 1 (h l hl)

/-- C2 is false as stated: with dense ranking `[A,B,C]`, lexical ranking
`[B,A,D]` and `k = 60`, A's fused total `1/61 + 1/62` is NOT greater than
B's total `1/62 + 1/61` — the two totals are equal (`123/3782` each); A
merely precedes B in the output through the stable iteration order. -/
theorem rrf_fuse_tie_counterexample :
    totalContrib 60 "A" exLists = totalContrib 60 "B" exLists ∧
    ¬ (totalContrib 60 "A" exLists > totalContrib 60 "B" exLists) ∧
    ((rrf_fuse exLists 60 5).map (fun f => f.item.key)) = ["A", "B", "C", "D"] := by
  refine ⟨?_, ?_, ?_⟩
  · norm_num +decide [totalContrib, contribFrom, exLists, exA, exB, exC, exD]
  · norm_num +decide [totalContrib, contribFrom, exLists, exA, exB, exC, exD]
  · norm_num +decide [rrf_fuse, rrfAll, rrfList, rrfAdd, lookupStr, setStr, sortDesc,
      insertDesc, exLists, exA, exB, exC, exD, exMeta]

/-- C2 amended: for duplicate-free ranked lists, `rrf_fuse` with `k = 60`
assigns each distinct chunk id a total score equal to the sum, over the
lists containing it, of `1/(60+r)` where `r` is its 1-based rank in that
list (an id in only one list scores from that list alone), and returns
items sorted in descending total order truncated to `limit`; in particular,
for dense ranking `[A,B,C]` and lexical ranking `[B,A,D]`, A's total
`1/61 + 1/62` EQUALS B's total `1/62 + 1/61` and A precedes B through the
stable iteration order, while C and D each receive the single-list score
`1/63` and rank below A and B. -/
theorem rrf_fuse_spec (lists : List (List SearchItem)) (limit : Nat)
    (hnodup : ∀ l ∈ lists, (l.map SearchItem.key).Nodup) :
    (∀ f ∈ rrf_fuse lists 60 limit,
        f.score = rrfSpecScore 60 f.item.key lists ∧ ∃ l ∈ lists, f.item ∈ l) ∧
    List.Pairwise (fun a b => b.score ≤ a.score) (rrf_fuse lists 60 limit) ∧
    (rrf_fuse lists 60 limit).length ≤ limit ∧
    ((rrf_fuse exLists 60 5).map (fun f => f.item.key)) = ["A", "B", "C", "D"] ∧
    ((rrf_fuse exLists 60 5).map FusedItem.score)
      = [1/61 + 1/62, 1/62 + 1/61, 1/63, 1/63] := by
  refine ⟨?_, rrf_fuse_sorted lists 60 limit, rrf_fuse_length lists 60 limit, ?_, ?_⟩
  · intro f hf
    have h := rrf_fuse_score_mem lists 60 limit f hf
    exact ⟨h.1.trans (totalContrib_spec 60 f.item.key lists hnodup), h.2⟩
  · norm_num +decide [rrf_fuse, rrfAll, rrfList, rrfAdd, lookupStr, setStr, sortDesc,
      insertDesc, exLists, exA, exB, exC, exD, exMeta]
  · norm_num +decide [rrf_fuse, rrfAll, rrfList, rrfAdd, lookupStr, setStr, sortDesc,
      insertDesc, exLists, exA, exB, exC, exD, exMeta]

/-- Witness for the amended C2 theorem, instantiated at the example lists. -/
theorem rrf_fuse_spec_witness :
    (∀ l ∈ exLists, (l.map SearchItem.key).Nodup) ∧
    ((∀ f ∈ rrf_fuse exLists 60 5,
        f.score = rrfSpecScore 60 f.item.key exLists ∧ ∃ l ∈ exLists, f.item ∈ l) ∧
    List.Pairwise (fun a b => b.score ≤ a.score) (rrf_fuse exLists 60 5) ∧
    (rrf_fuse exLists 60 5).length ≤ 5 ∧
    ((rrf_fuse exLists 60 5).map (fun f => f.item.key)) = ["A", "B", "C", "D"] ∧
    ((rrf_fuse exLists 60 5).map FusedItem.score)
      = [1/61 + 1/62, 1/62 + 1/61, 1/63, 1/63]) :=
  ⟨by decide, rrf_fuse_spec exLists 5 (by decide)⟩

/-- C8 is false as stated: the save is a direct overwrite, so a crash during
the write can leave a truncated prefix ("n") at the cache path that is
neither the previous valid content nor the new payload — the previous
valid cache can be corrupted. -/
theorem save_file_cache_not_atomic_counterexample :
    some "n" ∈ crashStates (some "old-valid-cache") (save_file_cache_ops "new-payload") ∧
    some "n" ≠ some "old-valid-cache" ∧ some "n" ≠ some "new-payload" := by
  decide

/-- C8 amended: save persists the entries together with the (chunkSize,
chunkOverlap) configuration they were built under (loading with the same
configuration returns them), but the write is NOT atomic: it is a single
direct overwrite of the cache path — mkdir of the parent, then one
`write_text`, with no temporary file and no rename — so a crash mid-write
can leave any truncated prefix of the new payload as the cache file's
content, corrupting the previously valid cache. -/
theorem save_file_cache_spec (files : List (String × CacheEntry)) (cs co : Nat)
    (payload old : String) :
    load_file_cache (some (save_file_cache files cs co)) cs co = files ∧
    save_file_cache_ops payload
      = [FsOp.mkdirParent, FsOp.writeFile cachePathName payload] ∧
    (∀ n, n ≤ payload.length →
      some (String.mk (payload.data.take n))
        ∈ crashStates (some old) (save_file_cache_ops payload)) := by
  refine ⟨by simp [load_file_cache, save_file_cache], rfl, ?_⟩
  intro n hn
  simp only [save_file_cache_ops, crashStates, opCrash, opRun, eq_self_iff_true,
    if_true, List.append_nil]
  rw [List.mem_append]
  right
  rw [List.mem_map]
  exact ⟨n, List.mem_range.mpr (by omega), rfl⟩

/-- Witness for the amended C8 theorem: the one-character prefix of the new
payload is a reachable crash state. -/
theorem save_file_cache_spec_witness :
    (1 ≤ ("np" : String).length) ∧
    some (String.mk (("np" : String).data.take 1))
      ∈ crashStates (some "o") (save_file_cache_ops "np") :=
  ⟨by decide, (save_file_cache_spec [] 512 50 "np" "o").2.2 1 (by decide)⟩

/-- C10: `BM25Index.query_ids` returns the empty pair on an empty id list,
and otherwise requests exactly `min(limit, len(ids))` results from the
scorer; under the scorer's contract (defined for any `k ≤ corpus size`) the
call always succeeds with at most `min(limit, len(ids))` ranked ids, so an
over-large limit cannot cause an out-of-range error. -/
theorem query_ids_safe (retrieve : Retriever) (idx : BM25Index) (query : String)
    (limit : Nat)
    (hcontract : ∀ art ids q k, k ≤ ids.length →
      ∃ out, retrieve art ids q k = Except.ok out ∧ out.1.length ≤ k) :
    (idx.ids = [] → idx.query_ids retrieve query limit = Except.ok ([], [])) ∧
    (idx.ids ≠ [] → idx.query_ids retrieve query limit
        = retrieve idx.bm25 idx.ids query (min limit idx.ids.length)) ∧
    ∃ out, idx.query_ids retrieve query limit = Except.ok out ∧
      out.1.length ≤ min limit idx.ids.length := by
  by_cases he : idx.ids = []
  · refine ⟨fun _ => ?_, fun hne => absurd he hne, ?_⟩
    · simp [BM25Index.query_ids, he]
    · exact ⟨([], []), by simp [BM25Index.query_ids, he], by simp⟩
  · have hiseb : idx.ids.isEmpty = false := by
      simpa [List.isEmpty_iff] using he
    refine ⟨fun h => absurd h he, fun _ => ?_, ?_⟩
    · simp [BM25Index.query_ids, hiseb]
    · obtain ⟨out, hout, hlen⟩ :=
        hcontract idx.bm25 idx.ids query (min limit idx.ids.length) (min_le_right _ _)
      exact ⟨out, by simp [BM25Index.query_ids, hiseb, hout], hlen⟩

/-- Witness for C10 at a one-document index and limit 7 > corpus size. -/
theorem query_ids_safe_witness :
    (exIdx.ids = [] → exIdx.query_ids exRetrieve "q" 7 = Except.ok ([], [])) ∧
    (exIdx.ids ≠ [] → exIdx.query_ids exRetrieve "q" 7
        = exRetrieve exIdx.bm25 exIdx.ids "q" (min 7 exIdx.ids.length)) ∧
    ∃ out, exIdx.query_ids exRetrieve "q" 7 = Except.ok out ∧
      out.1.length ≤ min 7 exIdx.ids.length :=
  query_ids_safe exRetrieve exIdx "q" 7 (by
    intro art ids q k hk
    refine ⟨(ids.take k, (ids.take k).map (fun _ => 0)), rfl, ?_⟩
    simp [List.length_take])

/-- C3 is false as stated in one corner: with an EMPTY vector index and a
snapshot whose stored count (3) differs from the current document count
(0), the next lexical query answers empty without discarding, rebuilding or
re-persisting the snapshot — the empty-index early return precedes the
coherency check. -/
theorem bm25_stale_snapshot_counterexample :
    staleStore.count ≠ ([] : Collection).length ∧
    _bm25_query_items exRetrieve [] [] (some staleStore) "q" 5 [] none
      = (Except.ok [], some staleStore) :=
  ⟨by decide, rfl⟩

/-- C3 amended: for every lexical query against a NON-EMPTY vector index —
if no snapshot exists, or the stored count or the stored id list's length
differs from the current document count, the snapshot is discarded and a
fresh term index is built from the full current corpus (ids and documents)
and re-persisted before the query is answered; otherwise the persisted
snapshot is loaded and used unchanged, without re-reading the corpus.
(Against an empty index the query returns empty and the snapshot is left
untouched, even if stale.) -/
theorem bm25_coherency (retrieve : Retriever) (fs : FS) (coll : Collection)
    (store : Option BM25Store) (query : String) (limit : Nat) (globs : List String)
    (since : Option ℚ) (hne : coll.length ≠ 0) :
    ((store = none ∨ ∃ s, store = some s
        ∧ (s.count ≠ coll.length ∨ s.ids.length ≠ coll.length)) →
      _bm25_query_items retrieve fs coll store query limit globs since
        = (bmTail retrieve fs coll (collDocs coll) (collIds coll) query limit globs since,
           some (BM25Store.mk coll.length (collIds coll) (collDocs coll)))) ∧
    (∀ s, store = some s → s.count = coll.length → s.ids.length = coll.length →
      _bm25_query_items retrieve fs coll store query limit globs since
        = (bmTail retrieve fs coll s.artifact s.ids query limit globs since, store)) := by
  have hde : (collDocs coll).isEmpty = false := by
    rw [Bool.eq_false_iff]
    intro ht
    apply hne
    have hc := List.isEmpty_iff.mp ht
    have := congrArg List.length hc
    simpa [collDocs] using this
  constructor
  · intro hmis
    have hload : load_cached_index store coll.length = none := by
      rcases hmis with rfl | ⟨s, rfl, hbad⟩
      · rfl
      · unfold load_cached_index
        by_cases hc : s.count = coll.length
        · have hl : s.ids.length ≠ coll.length := by
            rcases hbad with hb | hb
            · exact absurd hc hb
            · exact hb
          simp [hc, hl]
        · simp [hc]
    simp only [_bm25_query_items, if_neg hne, hload, hde, Bool.false_eq_true,
      if_false, BM25Index.from_documents, save_cached_index]
    have hlen : (collIds coll).length = coll.length := by simp [collIds]
    rw [hlen]
  · intro s hs hc hl
    subst hs
    have hload : load_cached_index (some s) coll.length = some (s.artifact, s.ids) := by
      simp [load_cached_index, hc, hl]
    simp only [_bm25_query_items, if_neg hne, hload]

/-- Witness for the amended C3 theorem: no snapshot exists, the index holds
one document, so the lexical query rebuilds from the corpus and persists
the fresh snapshot. -/
theorem bm25_coherency_witness :
    (exColl.length ≠ 0) ∧
    _bm25_query_items exRetrieve [] exColl none "q" 5 [] none
      = (bmTail exRetrieve [] exColl (collDocs exColl) (collIds exColl) "q" 5 [] none,
         some (BM25Store.mk exColl.length (collIds exColl) (collDocs exColl))) :=
  ⟨by decide,
   (bm25_coherency exRetrieve [] exColl none "q" 5 [] none (by decide)).1 (Or.inl rfl)⟩

/-- C5 is false as stated: with `sinceTimestamp` set, a candidate whose
recorded source path no longer exists on disk makes `search` raise
`FileNotFoundError` from the unguarded `Path.stat` in `_filter_items` —
the result is not dropped and the search does not return normally. -/
theorem since_filter_vanished_counterexample :
    search gQuery exRetrieve [] [] none "q" 5 [] (some 0) "dense" false
      = Except.error (PyError.fileNotFound "/gone.md") := rfl

theorem filterGo_since_all_exist (fs : FS) (cutoff : ℚ) :
    ∀ (items : List SearchItem),
      (∀ i ∈ items, (lookupStr fs i.meta.path).isSome = true) →
      filterGo fs [] (some cutoff) items
        = Except.ok (items.filter (fun i =>
            match lookupStr fs i.meta.path with
            | some st => decide (cutoff ≤ st.mtime)
            | none => false)) := by
  intro items
  induction items with
  | nil => intro _; rfl
  | cons item rest ih =>
      intro hall
      have hhead := hall item (List.mem_cons_self _ _)
      cases hl : lookupStr fs item.meta.path with
      | none => rw [hl] at hhead; simp at hhead
      | some st =>
          have hrest := ih (fun i hi => hall i (List.mem_cons_of_mem _ hi))
          simp only [filterGo, ne_eq, not_true_eq_false, false_and, if_false,
            statE, hl]
          by_cases hm : st.mtime < cutoff
          · rw [if_pos hm, hrest]
            have hpred : (match lookupStr fs item.meta.path with
                | some st => decide (cutoff ≤ st.mtime)
                | none => false) = false := by
              rw [hl]
              simpa using hm
            simp [Except.map, List.filter_cons, hpred]
          · rw [if_neg hm, hrest]
            have hpred : (match lookupStr fs item.meta.path with
                | some st => decide (cutoff ≤ st.mtime)
                | none => false) = true := by
              rw [hl]
              simpa using le_of_not_lt hm
            simp [Except.map, List.filter_cons, hpred]

theorem filterGo_since_missing (fs : FS) (cutoff : ℚ) :
    ∀ (items : List SearchItem),
      (∃ i ∈ items, lookupStr fs i.meta.path = none) →
      ∃ p, filterGo fs [] (some cutoff) items
        = Except.error (PyError.fileNotFound p) := by
  intro items
  induction items with
  | nil => intro h; simp at h
  | cons item rest ih =>
      intro hex
      cases hl : lookupStr fs item.meta.path with
      | none =>
          refine ⟨item.meta.path, ?_⟩
          simp only [filterGo, ne_eq, not_true_eq_false, false_and, if_false,
            statE, hl]
      | some st =>
          have hrest : ∃ i ∈ rest, lookupStr fs i.meta.path = none := by
            obtain ⟨i, hi, hnone⟩ := hex
            rcases List.mem_cons.mp hi with rfl | hi'
            · rw [hl] at hnone; cases hnone
            · exact ⟨i, hi', hnone⟩
          obtain ⟨p, hp⟩ := ih hrest
          refine ⟨p, ?_⟩
          simp only [filterGo, ne_eq, not_true_eq_false, false_and, if_false,
            statE, hl]
          by_cases hm : st.mtime < cutoff
          · rw [if_pos hm, hp]
          · rw [if_neg hm, hp]
            rfl

/-- C5 amended: with `sinceTimestamp` set, each candidate whose recorded
source path exists with a current modification time below the cutoff is
dropped, and the filtering returns normally when every candidate's recorded
path exists; a candidate whose path no longer exists instead raises
`FileNotFoundError` (the search errors rather than dropping the result). -/
theorem since_filter_spec (fs : FS) (cutoff : ℚ) (items : List SearchItem) :
    ((∀ i ∈ items, existsFS fs i.meta.path = true) →
      _filter_items fs [] (some cutoff) items
        = Except.ok (items.filter (fun i =>
            match lookupStr fs i.meta.path with
            | some st => decide (cutoff ≤ st.mtime)
            | none => false))) ∧
    ((∃ i ∈ items, existsFS fs i.meta.path = false) →
      ∃ p, _filter_items fs [] (some cutoff) items
        = Except.error (PyError.fileNotFound p)) := by
  constructor
  · intro hall
    rw [show _filter_items fs [] (some cutoff) items
        = filterGo fs [] (some cutoff) items from by simp [_filter_items]]
    exact filterGo_since_all_exist fs cutoff items hall
  · intro hex
    rw [show _filter_items fs [] (some cutoff) items
        = filterGo fs [] (some cutoff) items from by simp [_filter_items]]
    apply filterGo_since_missing
    obtain ⟨i, hi, hmiss⟩ := hex
    refine ⟨i, hi, ?_⟩
    rw [existsFS] at hmiss
    cases hl : lookupStr fs i.meta.path with
    | none => rfl
    | some st => rw [hl] at hmiss; simp at hmiss

/-- Witness for the amended C5 theorem: all candidate paths exist, so the
time filter returns normally, dropping stale results. -/
theorem since_filter_spec_witness :
    (∀ i ∈ [iA, iB], existsFS fsW i.meta.path = true) ∧
    _filter_items fsW [] (some 5) [iA, iB]
      = Except.ok ([iA, iB].filter (fun i =>
          match lookupStr fsW i.meta.path with
          | some st => decide ((5 : ℚ) ≤ st.mtime)
          | none => false)) :=
  ⟨by decide, (since_filter_spec fsW 5 [iA, iB]).1 (by decide)⟩

theorem trunc_take {α : Type} (l : List α) (limit : Nat) :
    (if l.length > limit then l.take limit else l) = l.take limit := by
  by_cases h : l.length > limit
  · rw [if_pos h]
  · rw [if_neg h]
    exact (List.take_of_length_le (Nat.le_of_not_lt h)).symm

theorem bmTail_length (retrieve : Retriever) (fs : FS) (coll : Collection)
    (artifact ids : List String) (query : String) (limit : Nat)
    (globs : List String) (since : Option ℚ) (items : List SearchItem)
    (h : bmTail retrieve fs coll artifact ids query limit globs since
      = Except.ok items) : items.length ≤ limit := by
  simp only [bmTail] at h
  split at h
  · cases h
  · split at h
    · cases h
      simp
    · split at h
      · cases h
      · cases h
        exact List.length_take_le _ _

theorem bm25_query_items_length (retrieve : Retriever) (fs : FS) (coll : Collection)
    (store : Option BM25Store) (query : String) (limit : Nat) (globs : List String)
    (since : Option ℚ) (items : List SearchItem)
    (h : (_bm25_query_items retrieve fs coll store query limit globs since).1
      = Except.ok items) : items.length ≤ limit := by
  by_cases hc : coll.length = 0
  · simp only [_bm25_query_items, if_pos hc] at h
    cases h
    simp
  · simp only [_bm25_query_items, if_neg hc] at h
    cases hl : load_cached_index store coll.length with
    | none =>
        rw [hl] at h
        by_cases hd : (collDocs coll).isEmpty = true
        · rw [if_pos hd] at h
          cases h
          simp
        · rw [if_neg hd] at h
          exact bmTail_length _ _ _ _ _ _ _ _ _ _ h
    | some p =>
        obtain ⟨artifact, ids⟩ := p
        rw [hl] at h
        exact bmTail_length _ _ _ _ _ _ _ _ _ _ h

/-- C6: with `benchmark=true`, dense and lexical retrieval run
independently: the dense side is queried at base budget `max(limit,10)`
(over-fetched threefold when filters are present) and truncated, the
lexical side runs at `max(limit,10)`; no fusion is applied — the returned
`BenchmarkResult` pairs the two independently produced result sets side by
side, each containing at most `max(limit,10)` items, with filters applied
inside each side's own pipeline. -/
theorem search_benchmark_spec (dq : DenseQuery) (retrieve : Retriever) (fs : FS)
    (coll : Collection) (store : Option BM25Store) (query : String) (limit : Nat)
    (globs : List String) (since : Option ℚ) (mode : String)
    (out : SearchOut) (store2 : Option BM25Store)
    (h : search dq retrieve fs coll store query limit globs since mode true
      = Except.ok (out, store2)) :
    ∃ d b,
      _query_items dq coll fs query
          (if (!globs.isEmpty || since.isSome) = true
           then max (max limit 10 * 3) 20 else max limit 10) globs since
        = Except.ok d ∧
      (_bm25_query_items retrieve fs coll store query (max limit 10) globs since).1
        = Except.ok b ∧
      store2 = (_bm25_query_items retrieve fs coll store query (max limit 10) globs since).2 ∧
      out = SearchOut.bench ⟨query,
        ⟨query, "dense", "Dense results: " ++ query, "Distance", d.take limit⟩,
        ⟨query, "bm25", "BM25 results: " ++ query, "Score", b⟩⟩ ∧
      (d.take limit).length ≤ max limit 10 ∧ b.length ≤ max limit 10 := by
  simp only [search, eq_self_iff_true, if_true] at h
  split at h
  · cases h
  next d0 hq =>
    split at h
    next e st2 heqb =>
      cases h
    next b0 st2 heqb =>
      injection h with h'
      have hout : out = SearchOut.bench ⟨query,
          ⟨query, "dense", "Dense results: " ++ query, "Distance",
            if d0.length > limit then d0.take limit else d0⟩,
          ⟨query, "bm25", "BM25 results: " ++ query, "Score", b0⟩⟩ :=
        (congrArg Prod.fst h').symm
      have hst : store2 = st2 := (congrArg Prod.snd h').symm
      refine ⟨d0, b0, hq, ?_, ?_, ?_, ?_, ?_⟩
      · rw [heqb]
      · rw [heqb, hst]
      · rw [hout, trunc_take]
      · refine Nat.le_trans (List.length_take_le _ _) (Nat.le_max_left _ _)
      · exact bm25_query_items_length retrieve fs coll store query (max limit 10)
          globs since b0 (by rw [heqb])

/-- Witness for C6 on an empty index: the benchmark search succeeds and
pairs the two independent (empty) result sets. -/
theorem search_benchmark_spec_witness :
    ∃ d b,
      _query_items emptyQuery [] [] "q"
          (if (!([] : List String).isEmpty || (none : Option ℚ).isSome) = true
           then max (max 5 10 * 3) 20 else max 5 10) [] none
        = Except.ok d ∧
      (_bm25_query_items exRetrieve [] [] none "q" (max 5 10) [] none).1
        = Except.ok b ∧
      (none : Option BM25Store)
        = (_bm25_query_items exRetrieve [] [] none "q" (max 5 10) [] none).2 ∧
      SearchOut.bench ⟨"q",
          ⟨"q", "dense", "Dense results: " ++ "q", "Distance", []⟩,
          ⟨"q", "bm25", "BM25 results: " ++ "q", "Score", []⟩⟩
        = SearchOut.bench ⟨"q",
          ⟨"q", "dense", "Dense results: " ++ "q", "Distance", d.take 5⟩,
          ⟨"q", "bm25", "BM25 results: " ++ "q", "Score", b⟩⟩ ∧
      (d.take 5).length ≤ max 5 10 ∧ b.length ≤ max 5 10 :=
  search_benchmark_spec emptyQuery exRetrieve [] [] none "q" 5 [] none "dense"
    (SearchOut.bench ⟨"q",
      ⟨"q", "dense", "Dense results: " ++ "q", "Distance", []⟩,
      ⟨"q", "bm25", "BM25 results: " ++ "q", "Score", []⟩⟩) none rfl

theorem pruneScan_spec (fs : FS) :
    ∀ (coll : Collection) (memo : List (String × Bool)), MemoOk fs memo →
      (pruneScan fs memo coll).1
        = (coll.filter (isOrphanB fs)).map (fun r => r.id) := by
  intro coll
  induction coll with
  | nil => intro memo _; rfl
  | cons r rest ih =>
      intro memo hmemo
      by_cases hp : r.meta.path = ""
      · have ho : isOrphanB fs r = true := by simp [isOrphanB, hp]
        simp only [pruneScan, if_pos hp, List.filter_cons, ho, if_true,
          List.map_cons]
        rw [ih memo hmemo]
      · simp only [pruneScan, if_neg hp]
        cases hl : lookupStr memo r.meta.path with
        | some b =>
            have hb : b = existsFS fs r.meta.path := hmemo _ _ hl
            by_cases hex : existsFS fs r.meta.path = true
            · have ho : isOrphanB fs r = false := by simp [isOrphanB, hp, hex]
              have hbt : b = true := by rw [hb, hex]
              simp only [hbt, if_true, List.filter_cons, ho, Bool.false_eq_true,
                if_false]
              exact ih memo hmemo
            · have hexf : existsFS fs r.meta.path = false :=
                Bool.eq_false_iff.mpr hex
              have ho : isOrphanB fs r = true := by simp [isOrphanB, hp, hexf]
              have hbf : b = false := by rw [hb, hexf]
              simp only [hbf, Bool.false_eq_true, if_false, List.filter_cons, ho,
                if_true, List.map_cons]
              rw [ih memo hmemo]
        | none =>
            have hmemo2 : MemoOk fs (setStr memo r.meta.path (existsFS fs r.meta.path)) := by
              intro q c hq
              by_cases hqe : q = r.meta.path
              · subst hqe
                rw [lookupStr_setStr_self] at hq
                cases hq
                rfl
              · rw [lookupStr_setStr_ne memo r.meta.path q _ hqe] at hq
                exact hmemo q c hq
            by_cases hex : existsFS fs r.meta.path = true
            · have ho : isOrphanB fs r = false := by simp [isOrphanB, hp, hex]
              rw [hex] at hmemo2
              simp only [hex, if_true, List.filter_cons, ho, Bool.false_eq_true,
                if_false]
              exact ih _ hmemo2
            · have hexf : existsFS fs r.meta.path = false :=
                Bool.eq_false_iff.mpr hex
              have ho : isOrphanB fs r = true := by simp [isOrphanB, hp, hexf]
              rw [hexf] at hmemo2
              simp only [hexf, Bool.false_eq_true, if_false, List.filter_cons, ho,
                if_true, List.map_cons]
              rw [ih _ hmemo2]

theorem collDelete_orphans (fs : FS) (coll : Collection)
    (hnd : (collIds coll).Nodup) :
    collDelete coll ((coll.filter (isOrphanB fs)).map (fun r => r.id))
      = coll.filter (fun r => !isOrphanB fs r) := by
  unfold collDelete
  apply List.filter_congr
  intro r hr
  by_cases ho : isOrphanB fs r = true
  · have hmem : r.id ∈ (coll.filter (isOrphanB fs)).map (fun r => r.id) :=
      List.mem_map_of_mem _ (List.mem_filter.mpr ⟨hr, ho⟩)
    simp [hmem, ho]
  · have hnmem : r.id ∉ (coll.filter (isOrphanB fs)).map (fun r => r.id) := by
      intro hmem
      obtain ⟨r2, hr2, hid⟩ := List.mem_map.mp hmem
      have hr2' := List.mem_filter.mp hr2
      have : r2 = r := List.inj_on_of_nodup_map (f := fun r => r.id)
        (by simpa [collIds] using hnd) hr2'.1 hr hid
      rw [this] at hr2'
      exact ho hr2'.2
    simp [hnmem, Bool.eq_false_iff.mpr ho]

/-- C9: prune(dryRun=false) deletes from the collection exactly the chunks
whose recorded source path is empty or no longer exists (existence checks
memoized per unique path, proved equal to the unmemoized check), returns
(orphanCount, totalChunks) with totalChunks the pre-deletion count, cleans
out of the File Change Cache every entry whose path no longer exists
(whenever at least one orphan chunk was deleted), and an immediately
repeated prune reports orphanCount = 0. -/
theorem prune_spec (fs : FS) (coll : Collection) (cacheStore : Option CacheFile)
    (hnd : (collIds coll).Nodup) :
    (prune fs coll cacheStore false).coll = coll.filter (fun r => !isOrphanB fs r) ∧
    (prune fs coll cacheStore false).orphanCount
      = (coll.filter (isOrphanB fs)).length ∧
    (prune fs coll cacheStore false).totalChunks = coll.length ∧
    ((coll.filter (isOrphanB fs)).length ≠ 0 → ∀ c, cacheStore = some c →
      (prune fs coll cacheStore false).cacheStore
        = some (CacheFile.mk c.chunkSize c.chunkOverlap
            (c.files.filter (fun kv => existsFS fs kv.1)))) ∧
    (prune fs (prune fs coll cacheStore false).coll
      (prune fs coll cacheStore false).cacheStore false).orphanCount = 0 := by
  have hscan : (pruneScan fs [] coll).1
      = (coll.filter (isOrphanB fs)).map (fun r => r.id) :=
    pruneScan_spec fs coll [] (fun p b h => by simp [lookupStr] at h)
  have hsecond : ∀ (c2 : Collection) (cs2 : Option CacheFile),
      (∀ r ∈ c2, isOrphanB fs r = false) → (prune fs c2 cs2 false).orphanCount = 0 := by
    intro c2 cs2 hall
    unfold prune
    by_cases he : c2.isEmpty = true
    · rw [if_pos he]
    · rw [if_neg he]
      have hscan2 : (pruneScan fs [] c2).1 = [] := by
        rw [pruneScan_spec fs c2 [] (fun p b h => by simp [lookupStr] at h)]
        have : c2.filter (isOrphanB fs) = [] :=
          List.filter_eq_nil.mpr (fun r hr => by simp [hall r hr])
        rw [this]
        rfl
      simp [hscan2]
  by_cases he : coll.isEmpty = true
  · have hc : coll = [] := List.isEmpty_iff.mp he
    subst hc
    refine ⟨rfl, rfl, rfl, ?_, ?_⟩
    · intro hlen
      simp at hlen
    · exact hsecond [] cacheStore (fun r hr => by simp at hr)
  · by_cases hz : ((coll.filter (isOrphanB fs)).map (fun r => r.id)).length = 0
    · have hfe : coll.filter (isOrphanB fs) = [] :=
        List.length_eq_zero.mp (by simpa only [List.length_map] using hz)
      have hall : ∀ r ∈ coll, isOrphanB fs r = false := by
        intro r hr
        have := List.filter_eq_nil.mp hfe r hr
        simpa using this
      have hkeep : coll.filter (fun r => !isOrphanB fs r) = coll :=
        List.filter_eq_self.mpr (fun r hr => by simp [hall r hr])
      have hpr : prune fs coll cacheStore false
          = ⟨0, coll.length, coll, cacheStore⟩ := by
        simp only [prune, hscan]
        rw [if_neg he, if_pos hz]
      rw [hpr]
      refine ⟨hkeep.symm, ?_, rfl, ?_, ?_⟩
      · simp [hfe]
      · intro hlen
        rw [hfe] at hlen
        simp at hlen
      · exact hsecond coll cacheStore hall
    · have hpr : prune fs coll cacheStore false
          = ⟨((coll.filter (isOrphanB fs)).map (fun r => r.id)).length, coll.length,
             collDelete coll ((coll.filter (isOrphanB fs)).map (fun r => r.id)),
             match cacheStore with
             | none => none
             | some c => some (CacheFile.mk c.chunkSize c.chunkOverlap
                 (c.files.filter (fun kv => existsFS fs kv.1)))⟩ := by
        simp only [prune, hscan]
        rw [if_neg he, if_neg hz]
        simp only [Bool.false_eq_true, if_false]
      rw [hpr]
      have hdel := collDelete_orphans fs coll hnd
      refine ⟨hdel, by simp, rfl, ?_, ?_⟩
      · intro _ c hc
        rw [hc]
      · have hall2 : ∀ r ∈ collDelete coll
            ((coll.filter (isOrphanB fs)).map (fun r => r.id)), isOrphanB fs r = false := by
          rw [hdel]
          intro r hr
          have := (List.mem_filter.mp hr).2
          simpa using this
        exact hsecond _ _ hall2

/-- Witness for C9 at the concrete two-chunk state. -/
theorem prune_spec_witness :
    (prune fsP collP cacheP false).coll = collP.filter (fun r => !isOrphanB fsP r) ∧
    (prune fsP collP cacheP false).orphanCount
      = (collP.filter (isOrphanB fsP)).length ∧
    (prune fsP collP cacheP false).totalChunks = collP.length ∧
    ((collP.filter (isOrphanB fsP)).length ≠ 0 → ∀ c, cacheP = some c →
      (prune fsP collP cacheP false).cacheStore
        = some (CacheFile.mk c.chunkSize c.chunkOverlap
            (c.files.filter (fun kv => existsFS fsP kv.1)))) ∧
    (prune fsP (prune fsP collP cacheP false).coll
      (prune fsP collP cacheP false).cacheStore false).orphanCount = 0 :=
  prune_spec fsP collP cacheP (by decide)

/-- C7 is false as stated: pattern `a.md` matches the BASENAME of
`/d/sub/a.md`, so the claim says the document passes the pre-filter, but
the code tests the path relative to the directory (`sub/a.md`) and the
full path (`/d/sub/a.md`) — not the basename — and excludes it. -/
theorem ingest_glob_counterexample :
    fnmatch (baseName "/d/sub/a.md") "a.md" = true ∧
    ingestGlobKeep "/d" ["a.md"] "/d/sub/a.md" = false ∧
    prefilterDocs [] "/d" ["a.md"] none [⟨"/d/sub/a.md", "t"⟩] = Except.ok [] := by
  refine ⟨by decide, by decide, ?_⟩
  have h : ingestGlobKeep "/d" ["a.md"] "/d/sub/a.md" = false := by decide
  simp [prefilterDocs, List.filter_cons, h]

/-- C7 amended: during ingest, when includeGlobs is non-empty, a document
passes the pre-filter iff some pattern matches its path relative to the
ingest directory (posix form; the basename substitutes only when the file
lies outside the directory) or some pattern matches its FULL source path;
the filtering applies to whole documents before chunking — the whole run
is unchanged when the non-passing documents are removed up front. -/
theorem ingest_glob_spec (fs : FS) (dir : String) (globs : List String)
    (docs : List SourceDoc) (md5 : String → String) (split : Splitter)
    (cs co : Nat) (report dry_run : Bool) (coll : Collection)
    (cacheStore : Option CacheFile) (hglobs : globs ≠ []) :
    prefilterDocs fs dir globs none docs
      = Except.ok (docs.filter (fun d =>
          globs.any (fun pat => fnmatch (relStr dir d.path) pat)
            || globs.any (fun pat => fnmatch d.path pat))) ∧
    ingest md5 split fs docs dir globs none cs co report dry_run coll cacheStore
      = ingest md5 split fs (docs.filter (fun d => ingestGlobKeep dir globs d.path))
          dir globs none cs co report dry_run coll cacheStore := by
  have hie : globs.isEmpty = false := by
    rw [Bool.eq_false_iff]
    intro ht
    exact hglobs (List.isEmpty_iff.mp ht)
  have h1 : prefilterDocs fs dir globs none docs
      = Except.ok (docs.filter (fun d => ingestGlobKeep dir globs d.path)) := by
    simp [prefilterDocs, hie]
  have h2 : prefilterDocs fs dir globs none
        (docs.filter (fun d => ingestGlobKeep dir globs d.path))
      = Except.ok (docs.filter (fun d => ingestGlobKeep dir globs d.path)) := by
    simp [prefilterDocs, hie, List.filter_filter]
  constructor
  · exact h1
  · simp only [ingest, h1, h2]

/-- Witness for the amended C7 theorem at a two-document directory with a
non-empty glob list. -/
theorem ingest_glob_spec_witness :
    prefilterDocs [] "/d" ["*.md"] none [⟨"/d/a.md", "t"⟩, ⟨"/d/b.txt", "u"⟩]
      = Except.ok ([⟨"/d/a.md", "t"⟩, ⟨"/d/b.txt", "u"⟩].filter (fun d =>
          ["*.md"].any (fun pat => fnmatch (relStr "/d" d.path) pat)
            || ["*.md"].any (fun pat => fnmatch d.path pat))) ∧
    ingest (fun s => s) (fun _ _ _ => []) [] [⟨"/d/a.md", "t"⟩, ⟨"/d/b.txt", "u"⟩]
        "/d" ["*.md"] none 512 50 true false [] none
      = ingest (fun s => s) (fun _ _ _ => [])
          [] ([⟨"/d/a.md", "t"⟩, ⟨"/d/b.txt", "u"⟩].filter
            (fun d => ingestGlobKeep "/d" ["*.md"] d.path))
          "/d" ["*.md"] none 512 50 true false [] none :=
  ingest_glob_spec [] "/d" ["*.md"] [⟨"/d/a.md", "t"⟩, ⟨"/d/b.txt", "u"⟩]
    (fun s => s) (fun _ _ _ => []) 512 50 true false [] none (by decide)

theorem statE_ok_iff (fs : FS) (p : String) (st : FileStat) :
    statE fs p = Except.ok st ↔ lookupStr fs p = some st := by
  unfold statE
  cases lookupStr fs p <;> simp

theorem cacheCheck_stats (fs : FS) (cache : List (String × CacheEntry)) (rep : Bool) :
    ∀ (docs : List SourceDoc) (u0 u : List (String × CacheEntry))
      (f : List SourceDoc) (n : Nat) (es : List SkipEntry),
      cacheCheck fs cache rep u0 docs = Except.ok (u, f, n, es) →
      ∀ d ∈ docs, (lookupStr fs d.path).isSome = true := by
  intro docs
  induction docs with
  | nil => intro u0 u f n es _ d hd; simp at hd
  | cons d0 rest ih =>
      intro u0 u f n es h d hd
      cases hst : statE fs d0.path with
      | error e => simp [cacheCheck, hst] at h
      | ok st =>
          simp only [cacheCheck, hst] at h
          have hl0 : lookupStr fs d0.path = some st := (statE_ok_iff fs d0.path st).mp hst
          rcases List.mem_cons.mp hd with rfl | hd'
          · simp [hl0]
          · by_cases hsk : skipEligible (lookupStr cache d0.path) st = true
            · rw [if_pos hsk] at h
              cases hrec : cacheCheck fs cache rep u0 rest with
              | error e => simp [hrec] at h
              | ok q =>
                  obtain ⟨u1, f1, n1, es1⟩ := q
                  exact ih u0 u1 f1 n1 es1 hrec d hd'
            · rw [if_neg hsk] at h
              cases hrec : cacheCheck fs cache rep
                  (setStr u0 d0.path ⟨st.mtime, st.size, false⟩) rest with
              | error e => simp [hrec] at h
              | ok q =>
                  obtain ⟨u1, f1, n1, es1⟩ := q
                  exact ih _ u1 f1 n1 es1 hrec d hd'

theorem cacheCheck_ok (fs : FS) (cache : List (String × CacheEntry)) :
    ∀ (docs : List SourceDoc) (u0 u : List (String × CacheEntry))
      (f : List SourceDoc) (n : Nat) (es : List SkipEntry),
      cacheCheck fs cache true u0 docs = Except.ok (u, f, n, es) →
      f = docs.filter (fun d => !willSkipB fs cache d.path) ∧
      es = (docs.filter (fun d => willSkipB fs cache d.path)).map mkUnchanged ∧
      n = (docs.filter (fun d => willSkipB fs cache d.path)).length := by
  intro docs
  induction docs with
  | nil =>
      intro u0 u f n es h
      simp only [cacheCheck] at h
      cases h
      exact ⟨rfl, rfl, rfl⟩
  | cons d0 rest ih =>
      intro u0 u f n es h
      cases hst : statE fs d0.path with
      | error e => simp [cacheCheck, hst] at h
      | ok st =>
          simp only [cacheCheck, hst] at h
          have hl0 : lookupStr fs d0.path = some st := (statE_ok_iff fs d0.path st).mp hst
          have hws : willSkipB fs cache d0.path
              = skipEligible (lookupStr cache d0.path) st := by
            simp [willSkipB, hl0]
          by_cases hsk : skipEligible (lookupStr cache d0.path) st = true
          · rw [if_pos hsk] at h
            cases hrec : cacheCheck fs cache true u0 rest with
            | error e => simp [hrec] at h
            | ok q =>
                obtain ⟨u1, f1, n1, es1⟩ := q
                simp only [hrec] at h
                cases h
                obtain ⟨hf, hes, hn⟩ := ih _ _ _ _ _ hrec
                have hw : willSkipB fs cache d0.path = true := by rw [hws]; exact hsk
                refine ⟨?_, ?_, ?_⟩
                · simp [List.filter_cons, hw, hf]
                · simp [List.filter_cons, hw, hes, mkUnchanged]
                · simp [List.filter_cons, hw, hn]
          · rw [if_neg hsk] at h
            cases hrec : cacheCheck fs cache true
                (setStr u0 d0.path ⟨st.mtime, st.size, false⟩) rest with
            | error e => simp [hrec] at h
            | ok q =>
                obtain ⟨u1, f1, n1, es1⟩ := q
                simp only [hrec] at h
                cases h
                obtain ⟨hf, hes, hn⟩ := ih _ _ _ _ _ hrec
                have hw : willSkipB fs cache d0.path = false := by
                  rw [hws]
                  exact Bool.eq_false_iff.mpr hsk
                refine ⟨?_, ?_, ?_⟩
                · simp [List.filter_cons, hw, hf]
                · simp [List.filter_cons, hw, hes]
                · simp [List.filter_cons, hw, hn]

theorem cacheCheck_skipped_lookup (fs : FS) (cache : List (String × CacheEntry))
    (rep : Bool) :
    ∀ (docs : List SourceDoc) (u0 u : List (String × CacheEntry))
      (f : List SourceDoc) (n : Nat) (es : List SkipEntry),
      cacheCheck fs cache rep u0 docs = Except.ok (u, f, n, es) →
      ∀ p, willSkipB fs cache p = true → lookupStr u p = lookupStr u0 p := by
  intro docs
  induction docs with
  | nil =>
      intro u0 u f n es h p _
      simp only [cacheCheck] at h
      cases h
      rfl
  | cons d0 rest ih =>
      intro u0 u f n es h p hp
      cases hst : statE fs d0.path with
      | error e => simp [cacheCheck, hst] at h
      | ok st =>
          simp only [cacheCheck, hst] at h
          have hl0 : lookupStr fs d0.path = some st := (statE_ok_iff fs d0.path st).mp hst
          by_cases hsk : skipEligible (lookupStr cache d0.path) st = true
          · rw [if_pos hsk] at h
            cases hrec : cacheCheck fs cache rep u0 rest with
            | error e => simp [hrec] at h
            | ok q =>
                obtain ⟨u1, f1, n1, es1⟩ := q
                simp only [hrec] at h
                cases h
                exact ih _ _ _ _ _ hrec p hp
          · rw [if_neg hsk] at h
            cases hrec : cacheCheck fs cache rep
                (setStr u0 d0.path ⟨st.mtime, st.size, false⟩) rest with
            | error e => simp [hrec] at h
            | ok q =>
                obtain ⟨u1, f1, n1, es1⟩ := q
                simp only [hrec] at h
                cases h
                have hne : p ≠ d0.path := by
                  intro he
                  subst he
                  rw [willSkipB, hl0] at hp
                  exact hsk hp
                rw [ih _ _ _ _ _ hrec p hp]
                exact lookupStr_setStr_ne u0 d0.path p _ hne

theorem cacheCheck_filtered_lookup (fs : FS) (cache : List (String × CacheEntry))
    (rep : Bool) :
    ∀ (docs : List SourceDoc) (u0 u : List (String × CacheEntry))
      (f : List SourceDoc) (n : Nat) (es : List SkipEntry),
      cacheCheck fs cache rep u0 docs = Except.ok (u, f, n, es) →
      ∀ p st, lookupStr fs p = some st → willSkipB fs cache p = false →
        ((∃ d ∈ docs, d.path = p) ∨ lookupStr u0 p = some ⟨st.mtime, st.size, false⟩) →
        lookupStr u p = some ⟨st.mtime, st.size, false⟩ := by
  intro docs
  induction docs with
  | nil =>
      intro u0 u f n es h p st hst hw hin
      simp only [cacheCheck] at h
      cases h
      rcases hin with ⟨d, hd, _⟩ | hin
      · simp at hd
      · exact hin
  | cons d0 rest ih =>
      intro u0 u f n es h p st hst hw hin
      cases hst0 : statE fs d0.path with
      | error e => simp [cacheCheck, hst0] at h
      | ok st0 =>
          simp only [cacheCheck, hst0] at h
          have hl0 : lookupStr fs d0.path = some st0 :=
            (statE_ok_iff fs d0.path st0).mp hst0
          by_cases hsk : skipEligible (lookupStr cache d0.path) st0 = true
          · rw [if_pos hsk] at h
            cases hrec : cacheCheck fs cache rep u0 rest with
            | error e => simp [hrec] at h
            | ok q =>
                obtain ⟨u1, f1, n1, es1⟩ := q
                simp only [hrec] at h
                cases h
                apply ih _ _ _ _ _ hrec p st hst hw
                rcases hin with ⟨d, hd, hdp⟩ | hin
                · rcases List.mem_cons.mp hd with rfl | hd'
                  · exfalso
                    rw [← hdp] at hw
                    simp only [willSkipB, hl0] at hw
                    rw [hw] at hsk
                    cases hsk
                  · exact Or.inl ⟨d, hd', hdp⟩
                · exact Or.inr hin
          · rw [if_neg hsk] at h
            cases hrec : cacheCheck fs cache rep
                (setStr u0 d0.path ⟨st0.mtime, st0.size, false⟩) rest with
            | error e => simp [hrec] at h
            | ok q =>
                obtain ⟨u1, f1, n1, es1⟩ := q
                simp only [hrec] at h
                cases h
                apply ih _ _ _ _ _ hrec p st hst hw
                by_cases hpe : p = d0.path
                · subst hpe
                  have hsame : st = st0 := by
                    rw [hl0] at hst
                    cases hst
                    rfl
                  subst hsame
                  exact Or.inr (lookupStr_setStr_self _ _ _)
                · rcases hin with ⟨d, hd, hdp⟩ | hin
                  · rcases List.mem_cons.mp hd with rfl | hd'
                    · exact absurd hdp (fun he => hpe he.symm)
                    · exact Or.inl ⟨d, hd', hdp⟩
                  · refine Or.inr ?_
                    rw [lookupStr_setStr_ne u0 d0.path p _ hpe]
                    exact hin

theorem cacheCheck_all_skip (fs : FS) (cache : List (String × CacheEntry)) :
    ∀ (docs : List SourceDoc),
      (∀ d ∈ docs, willSkipB fs cache d.path = true) →
      cacheCheck fs cache true cache docs
        = Except.ok (cache, [], docs.length, docs.map mkUnchanged) := by
  intro docs
  induction docs with
  | nil => intro _; rfl
  | cons d0 rest ih =>
      intro hall
      have h0 := hall d0 (List.mem_cons_self _ _)
      rw [willSkipB] at h0
      cases hl0 : lookupStr fs d0.path with
      | none => rw [hl0] at h0; cases h0
      | some st =>
          rw [hl0] at h0
          have hst : statE fs d0.path = Except.ok st := (statE_ok_iff fs d0.path st).mpr hl0
          simp only [cacheCheck, hst, if_pos h0,
            ih (fun d hd => hall d (List.mem_cons_of_mem _ hd))]
          simp [mkUnchanged, List.length_cons]

theorem markIndexed_untouched (p : String) :
    ∀ (docs : List SourceDoc) (u : List (String × CacheEntry)),
      (∀ d ∈ docs, d.path ≠ p) →
      lookupStr (markIndexed u docs) p = lookupStr u p := by
  intro docs
  induction docs with
  | nil => intro u _; rfl
  | cons d rest ih =>
      intro u hall
      have hd : d.path ≠ p := hall d (List.mem_cons_self _ _)
      have hrest : ∀ d' ∈ rest, d'.path ≠ p :=
        fun d' hd' => hall d' (List.mem_cons_of_mem _ hd')
      cases hl : lookupStr u d.path with
      | none =>
          simp only [markIndexed, hl]
          exact ih u hrest
      | some e =>
          simp only [markIndexed, hl]
          rw [ih _ hrest]
          exact lookupStr_setStr_ne u d.path p _ (fun he => hd he.symm)

theorem markIndexed_marks (p : String) :
    ∀ (docs : List SourceDoc) (u : List (String × CacheEntry)) (m : ℚ) (sz : Nat)
      (b : Bool),
      lookupStr u p = some ⟨m, sz, b⟩ → (∃ d ∈ docs, d.path = p) →
      lookupStr (markIndexed u docs) p = some ⟨m, sz, true⟩ := by
  intro docs
  induction docs with
  | nil =>
      intro u m sz b _ hex
      obtain ⟨d, hd, _⟩ := hex
      simp at hd
  | cons d rest ih =>
      intro u m sz b hu hex
      by_cases hdp : d.path = p
      · have hl : lookupStr u d.path = some ⟨m, sz, b⟩ := by rw [hdp]; exact hu
        simp only [markIndexed, hl]
        have hu2 : lookupStr (setStr u d.path ⟨m, sz, true⟩) p = some ⟨m, sz, true⟩ := by
          rw [hdp]
          exact lookupStr_setStr_self u p _
        by_cases hrest : ∃ d2 ∈ rest, d2.path = p
        · exact ih _ m sz true hu2 hrest
        · rw [markIndexed_untouched p rest _
            (fun d2 hd2 he => hrest ⟨d2, hd2, he⟩)]
          exact hu2
      · have hex2 : ∃ d2 ∈ rest, d2.path = p := by
          obtain ⟨d2, hd2, he⟩ := hex
          rcases List.mem_cons.mp hd2 with rfl | hd3
          · exact absurd he hdp
          · exact ⟨d2, hd3, he⟩
        cases hl : lookupStr u d.path with
        | none =>
            simp only [markIndexed, hl]
            exact ih u m sz b hu hex2
        | some e =>
            simp only [markIndexed, hl]
            apply ih _ m sz b _ hex2
            rw [lookupStr_setStr_ne u d.path p _ (fun he => hdp he.symm)]
            exact hu

/-- C1: for every directory, glob/time filters and chunking configuration,
running ingest a second time immediately after a completed (non-dry) first
run, with the filesystem and the enumerated documents unchanged and the
same configuration, succeeds with `added = 0`, reports every enumerated
(pre-filter surviving) file as skipped with reason `unchanged_file`, and
leaves the collection and the cache store exactly as the first run left
them. -/
theorem ingest_idempotent (md5 : String → String) (split : Splitter) (fs : FS)
    (docs : List SourceDoc) (dir : String) (globs : List String) (since : Option ℚ)
    (cs co : Nat) (coll : Collection) (cacheStore : Option CacheFile)
    (r1 : IngestResult)
    (h1 : ingest md5 split fs docs dir globs since cs co true false coll cacheStore
      = Except.ok r1) :
    ∃ docs1 r2,
      prefilterDocs fs dir globs since docs = Except.ok docs1 ∧
      ingest md5 split fs docs dir globs since cs co true false r1.coll r1.cacheStore
        = Except.ok r2 ∧
      r2.report.added = 0 ∧
      r2.report.skipped = docs1.length ∧
      r2.report.skipEntries = docs1.map mkUnchanged ∧
      r2.coll = r1.coll ∧ r2.cacheStore = r1.cacheStore := by
  cases hpre : prefilterDocs fs dir globs since docs with
  | error e => simp [ingest, hpre] at h1
  | ok docs1 =>
      refine ⟨docs1, ?_⟩
      simp only [ingest, hpre] at h1
      by_cases hde : docs1.isEmpty = true
      · rw [if_pos hde] at h1
        cases h1
        have hd1 : docs1 = [] := List.isEmpty_iff.mp hde
        subst hd1
        refine ⟨⟨⟨0, 0, []⟩, coll, cacheStore⟩, rfl, ?_, rfl, rfl, rfl, rfl, rfl⟩
        simp only [ingest, hpre, if_pos hde]
      · rw [if_neg hde] at h1
        cases hcc : cacheCheck fs (load_file_cache cacheStore cs co) true
            (load_file_cache cacheStore cs co) docs1 with
        | error e => simp [hcc] at h1
        | ok q =>
            obtain ⟨u, f, skippedCache, entries1⟩ := q
            simp only [hcc] at h1
            have hchar := cacheCheck_ok fs (load_file_cache cacheStore cs co)
              docs1 _ u f skippedCache entries1 hcc
            by_cases hfe : f.isEmpty = true
            · rw [if_pos hfe] at h1
              cases h1
              have hfnil : f = [] := List.isEmpty_iff.mp hfe
              have hall : ∀ d ∈ docs1,
                  willSkipB fs (load_file_cache cacheStore cs co) d.path = true := by
                intro d hd
                by_contra hw
                have hwf : willSkipB fs (load_file_cache cacheStore cs co) d.path
                    = false := Bool.eq_false_iff.mpr hw
                have hmem : d ∈ f := by
                  rw [hchar.1]
                  exact List.mem_filter.mpr ⟨hd, by simp [hwf]⟩
                rw [hfnil] at hmem
                simp at hmem
              have hcc2 := cacheCheck_all_skip fs (load_file_cache cacheStore cs co)
                docs1 hall
              refine ⟨⟨⟨0, docs1.length, docs1.map mkUnchanged⟩, coll, cacheStore⟩,
                rfl, ?_, rfl, rfl, rfl, rfl, rfl⟩
              simp only [ingest, hpre, if_neg hde, hcc2, List.isEmpty_nil, if_true]
            · rw [if_neg hfe] at h1
              cases hprep : prepNodes md5 fs (split cs co f) with
              | error e => simp [hprep] at h1
              | ok nd =>
                  simp only [hprep, Bool.false_eq_true, if_false] at h1
                  cases h1
                  have hall2 : ∀ d ∈ docs1,
                      willSkipB fs (markIndexed u f) d.path = true := by
                    intro d hd
                    have hstat := cacheCheck_stats fs
                      (load_file_cache cacheStore cs co) true docs1 _ u f
                      skippedCache entries1 hcc d hd
                    obtain ⟨st, hst⟩ := Option.isSome_iff_exists.mp hstat
                    by_cases hw : willSkipB fs (load_file_cache cacheStore cs co)
                        d.path = true
                    · have hlu := cacheCheck_skipped_lookup fs
                        (load_file_cache cacheStore cs co) true docs1 _ u f
                        skippedCache entries1 hcc d.path hw
                      have hsk : skipEligible
                          (lookupStr (load_file_cache cacheStore cs co) d.path) st
                          = true := by
                        simp only [willSkipB, hst] at hw
                        exact hw
                      have hnotf : ∀ df ∈ f, df.path ≠ d.path := by
                        intro df hdf he
                        rw [hchar.1] at hdf
                        have hbad := (List.mem_filter.mp hdf).2
                        rw [he] at hbad
                        simp [hw] at hbad
                      have hmi := markIndexed_untouched d.path f u hnotf
                      simp only [willSkipB, hst]
                      rw [hmi, hlu]
                      exact hsk
                    · have hwf : willSkipB fs (load_file_cache cacheStore cs co)
                          d.path = false := Bool.eq_false_iff.mpr hw
                      have hdf : d ∈ f := by
                        rw [hchar.1]
                        exact List.mem_filter.mpr ⟨hd, by simp [hwf]⟩
                      have hlu := cacheCheck_filtered_lookup fs
                        (load_file_cache cacheStore cs co) true docs1 _ u f
                        skippedCache entries1 hcc d.path st hst hwf
                        (Or.inl ⟨d, hd, rfl⟩)
                      have hmi := markIndexed_marks d.path f u st.mtime st.size
                        false hlu ⟨d, hdf, rfl⟩
                      simp only [willSkipB, hst]
                      rw [hmi]
                      simp [skipEligible]
                  have hload : load_file_cache
                      (some (save_file_cache (markIndexed u f) cs co)) cs co
                      = markIndexed u f := by
                    simp [load_file_cache, save_file_cache]
                  have hcc2 := cacheCheck_all_skip fs (markIndexed u f) docs1 hall2
                  refine ⟨⟨⟨0, docs1.length, docs1.map mkUnchanged⟩, _, _⟩,
                    rfl, ?_, rfl, rfl, rfl, rfl, rfl⟩
                  simp only [ingest, hpre, if_neg hde, hload, hcc2,
                    List.isEmpty_nil, if_true]

/-- Witness for C1: after the concrete first run indexes one chunk, the
second run adds nothing and reports the file unchanged. -/
theorem ingest_idempotent_witness :
    ∃ docs1 r2,
      prefilterDocs fsI "/w" [] none docsI = Except.ok docs1 ∧
      ingest (fun s => s) splitI fsI docsI "/w" [] none 512 50 true false
          r1I.coll r1I.cacheStore = Except.ok r2 ∧
      r2.report.added = 0 ∧
      r2.report.skipped = docs1.length ∧
      r2.report.skipEntries = docs1.map mkUnchanged ∧
      r2.coll = r1I.coll ∧ r2.cacheStore = r1I.cacheStore :=
  ingest_idempotent (fun s => s) splitI fsI docsI "/w" [] none 512 50 [] none r1I rfl

end Know

